import Mathlib

/-!
Response pipeline of cppan (`src/response.cpp`).

A shallow embedding of `ResponseData` and of its operations, with the remote
index, the archive primitives and the file system made explicit.

* External behaviour that the orchestrator only consumes (the answer of the
  remote index, the bytes behind an archive url, the outcome of unpacking, the
  configuration found in a directory) is an `Env` of oracles.
* Everything the orchestrator can change outside its own fields (directories,
  files, package indexes, the log of network requests) is a `World`.
* A C++ exception does not roll anything back, so every operation returns a
  `Res`: either `ok` or `fail msg`, both carrying the state reached.
-/

set_option autoImplicit false

namespace Cppan

/-! ## Results of operations that may throw -/

/-- Outcome of an operation: normal return, or an exception with its message;
in both cases the state reached so far is kept. -/
inductive Res (σ : Type) where
  | ok (s : σ)
  | fail (msg : String) (s : σ)
  deriving DecidableEq

namespace Res

variable {σ : Type}

/-- State carried by an outcome. -/
def state : Res σ → σ
  | ok s => s
  | fail _ s => s

/-- Message of the exception, when there is one. -/
def error? : Res σ → Option String
  | ok _ => none
  | fail m _ => some m

/-- Whether the operation returned normally. -/
def isOk : Res σ → Bool
  | ok _ => true
  | fail _ _ => false

/-- Sequencing: the continuation runs only after a normal return. -/
def andThen (r : Res σ) (k : σ → Res σ) : Res σ :=
  match r with
  | ok s => k s
  | fail m s => fail m s

/-- A loop over a list whose body may throw: the first exception ends it. -/
def forIn {α : Type} (body : α → σ → Res σ) : List α → σ → Res σ
  | [], s => ok s
  | a :: as, s => (body a s).andThen (forIn body as)

end Res

/-! ## Ordered maps (`std::map`) as association lists kept in key order -/

/-- Byte-wise comparison of two strings (`std::string::compare`), on the
character lists. -/
def cmpChars : List Char → List Char → Ordering
  | [], [] => Ordering.eq
  | [], _ :: _ => Ordering.lt
  | _ :: _, [] => Ordering.gt
  | a :: as, b :: bs =>
    if a.toNat < b.toNat then Ordering.lt
    else if b.toNat < a.toNat then Ordering.gt
    else cmpChars as bs

/-- Order of `std::string` keys. -/
def cmpStr (a b : String) : Ordering := cmpChars a.data b.data

/-- Order of integer keys. -/
def cmpInt (a b : Int) : Ordering :=
  if a < b then Ordering.lt else if b < a then Ordering.gt else Ordering.eq

namespace StdMap

variable {K V : Type}

/-- Entry found by `std::map::find`. -/
def find (cmp : K → K → Ordering) (k : K) : List (K × V) → Option (K × V)
  | [] => none
  | e :: es => if cmp k e.1 = Ordering.eq then some e else find cmp k es

/-- Whether the key is present (`find(k) != end()`). -/
def contains (cmp : K → K → Ordering) (k : K) (m : List (K × V)) : Bool :=
  (find cmp k m).isSome

/-- Placement of a new entry at its position in the key order. -/
def place (cmp : K → K → Ordering) (k : K) (v : V) : List (K × V) → List (K × V)
  | [] => [(k, v)]
  | e :: es => if cmp k e.1 = Ordering.lt then (k, v) :: e :: es else e :: place cmp k v es

/-- Update of the mapped value of the entry that `find` returns. -/
def update (cmp : K → K → Ordering) (k : K) (f : V → V) : List (K × V) → List (K × V)
  | [] => []
  | e :: es => if cmp k e.1 = Ordering.eq then (e.1, f e.2) :: es else e :: update cmp k f es

/-- Insertion that keeps an existing entry (`std::map::insert`, `emplace`). -/
def insert (cmp : K → K → Ordering) (k : K) (v : V) (m : List (K × V)) : List (K × V) :=
  if (find cmp k m).isSome then m else place cmp k v m

/-- Find-or-insert followed by an update of the mapped value
(`m[k]` used as an lvalue): the stored key is kept when there is one, a
value-initialised entry is created when there is none. -/
def modify (cmp : K → K → Ordering) (k : K) (dflt : V) (f : V → V) (m : List (K × V)) :
    List (K × V) :=
  if (find cmp k m).isSome then update cmp k f m else place cmp k (f dflt) m

/-- Removal by key (`std::map::erase(key)`). -/
def erase (cmp : K → K → Ordering) (k : K) (m : List (K × V)) : List (K × V) :=
  m.filter (fun e => !decide (cmp k e.1 = Ordering.eq))

/-- Keys in iteration order. -/
def keys (m : List (K × V)) : List K := m.map Prod.fst

end StdMap

/-! ## Paths, versions, flags, packages -/

/-- Hierarchical dot-separated identifier, held in its string form
(`toString()` is the field `str`, construction from a string fills it). -/
structure ProjectPath where
  str : String
  deriving DecidableEq, Repr

/-- Modelled from the spec: `ProjectPath::is_root_of` is declared outside the
sources at hand; `a.is_root_of(b)` means that `b` equals `a` or `b` starts
with `a` followed by a component boundary (the dot). -/
def ProjectPath.is_root_of (a b : ProjectPath) : Bool :=
  b.str == a.str || (a.str.data ++ ['.']).isPrefixOf b.str.data

/-- Modelled from the spec: path as a file-system sub-path in url form, the
components becoming directory levels separated by a forward slash. -/
def ProjectPath.toFileSystemPath (a : ProjectPath) : String :=
  String.mk (a.str.data.map (fun c => if c = '.' then '/' else c))

/-- Version, opaque to the pipeline and known through `toString()` only. -/
structure Version where
  str : String
  deriving DecidableEq, Repr

/-- Modelled from the spec: the flag enumeration is declared outside the
sources at hand; the two bits the pipeline names are kept apart, the
remaining bits of the bitset pass through as a number. -/
structure DependencyFlags where
  pfDirectDependency : Bool
  pfIncludeDirectories : Bool
  others : Nat
  deriving DecidableEq, Repr

/-- Bitwise or of two flag sets (`|=`). -/
def DependencyFlags.or (a b : DependencyFlags) : DependencyFlags :=
  { pfDirectDependency := a.pfDirectDependency || b.pfDirectDependency
    pfIncludeDirectories := a.pfIncludeDirectories || b.pfIncludeDirectories
    others := a.others ||| b.others }

/-- Empty bitset. -/
def DependencyFlags.none : DependencyFlags :=
  { pfDirectDependency := false, pfIncludeDirectories := false, others := 0 }

/-- Package identity with its flags and the names derived by `createNames`. -/
structure Package where
  ppath : ProjectPath
  version : Version
  flags : DependencyFlags
  target_name : String
  deriving DecidableEq, Repr

/-- The sentinel root `Package()`: empty path, empty version. -/
def Package.root : Package :=
  { ppath := ⟨""⟩, version := ⟨""⟩, flags := DependencyFlags.none, target_name := "" }

/-- Modelled from the spec: `Package::getTargetName`, the path and the
version joined by a dash. -/
def Package.getTargetName (p : Package) : String :=
  p.ppath.str ++ "-" ++ p.version.str

/-- Effect of `createNames()` on the fields kept here. -/
def Package.createNames (p : Package) : Package :=
  { p with target_name := p.getTargetName }

/-- Modelled from the spec: ordering of packages, lexical over
(path, version); the flags take no part in it. -/
def cmpPackage (a b : Package) : Ordering :=
  match cmpStr a.ppath.str b.ppath.str with
  | Ordering.lt => Ordering.lt
  | Ordering.gt => Ordering.gt
  | Ordering.eq => cmpStr a.version.str b.version.str

/-- Direct edges of a project: `std::map<String, Package>`. -/
abbrev Packages := List (String × Package)

/-- Resolved node: a package with the digest of its archive and the ids of
its direct dependencies; `has_map` tells whether `map_ptr` was set. -/
structure DownloadDependency extends Package where
  md5 : String
  id_dependencies : List Int
  has_map : Bool
  deriving DecidableEq, Repr

/-- Default-constructed node. -/
def DownloadDependency.default : DownloadDependency :=
  { toPackage := Package.root, md5 := "", id_dependencies := [], has_map := false }

/-- Resolved graph: `std::map<ProjectVersionId, DownloadDependency>`. -/
abbrev DownloadDependencies := List (Int × DownloadDependency)

/-- Modelled from the spec: `getDirectDependencies` materialises the map
id to node for each direct edge only, reading the containing map. -/
def DownloadDependency.getDirectDependencies (d : DownloadDependency)
    (m : DownloadDependencies) : DownloadDependencies :=
  d.id_dependencies.filterMap (fun i => StdMap.find cmpInt i m)

/-! ## Configurations, trees, environment, world, orchestrator state -/

/-- Modelled from the spec: the part of `Project` the pipeline touches. -/
structure Project where
  pkg : Package
  dependencies : Packages
  unpack_directory : String
  deriving DecidableEq, Repr

/-- Modelled from the spec: the part of `Config` the pipeline touches;
`project` is what `getDefaultProject()` returns. -/
structure Config where
  is_dependency : Bool
  downloaded : Bool
  pkg : Package
  project : Project
  deriving DecidableEq, Repr

/-- Entry of the package map. The pointer `config` is held as the optional
object it designates (`none` is the null pointer): every such object is
reached through one entry only. -/
structure PackageConfig where
  config : Option Config
  dependencies : Packages
  deriving DecidableEq, Repr

/-- Value-initialised entry, as created by `packages[p]`. -/
def PackageConfig.default : PackageConfig := { config := none, dependencies := [] }

/-- The package map `std::map<Package, PackageConfig>`. -/
abbrev PackageConfigs := List (Package × PackageConfig)

/-- Request document: under the key of each requested path (one key, the
separator of the tree path being the bar) the leaf `version`. -/
abbrev RequestTree := List (String × String)

/-- Replace the child under a key, or append it (`put_child`). -/
def put_child (k v : String) : RequestTree → RequestTree
  | [] => [(k, v)]
  | e :: es => if e.1 = k then (k, v) :: es else e :: put_child k v es

/-- An integer field of the response as `get<int>` sees it. -/
inductive IntField where
  | absent
  | notInt
  | int (n : Int)
  deriving DecidableEq, Repr

/-- Node of the response under `packages`; a field that is missing, or that
does not convert to the type asked for, is `none`. -/
structure PackageTree where
  id : Option Int
  version : Option String
  flags : Option DependencyFlags
  md5 : Option String
  dependencies : Option (List (Option Int))
  deriving DecidableEq, Repr

/-- Response document of the remote index. -/
structure ResponseTree where
  api : IntField
  error : Option String
  data_dir : Option String
  packages : Option (List (String × PackageTree))
  deriving DecidableEq, Repr

/-- Empty document. -/
def ResponseTree.empty : ResponseTree :=
  { api := IntField.absent, error := none, data_dir := none, packages := none }

/-- What the pipeline can change outside its own fields. -/
structure World where
  dirs : List String
  files : List (String × String)
  peer_locks : List String
  index_src : List (String × String)
  index_obj : List (String × String)
  net_log : List String
  deriving DecidableEq, Repr

/-- What the pipeline consumes from outside: storage roots, the remote index,
the archive server, the archive and configuration readers. -/
structure Env where
  /-- Root `directories.storage_dir_src`. -/
  storage_dir_src : String
  /-- Root `directories.storage_dir_obj`. -/
  storage_dir_obj : String
  /-- Name of the project manifest, `CPPAN_FILENAME`. -/
  cppan_filename : String
  /-- Answer of `url_post` for a url and a request, or its exception. -/
  url_post : String → RequestTree → Except String ResponseTree
  /-- Bytes and md5 that `download_file` obtains for a url, or its exception. -/
  download_file : String → Except String (String × String)
  /-- Top-level entries (name, is a directory) that `unpack_file` creates from
  the bytes of an archive, or its exception. -/
  unpack_file : String → Except String (List (String × Bool))
  /-- Configuration that `Config(dir)` reads, or its exception. -/
  load_config : String → Except String Config
  /-- World found once another process released the lock it held on a stamp
  file. -/
  peer_done : String → World → World

/-- The fields of `ResponseData`. -/
structure ResponseData where
  request : RequestTree
  dependency_tree : ResponseTree
  download_dependencies_ : DownloadDependencies
  dep_ids : List (Package × Int)
  host : String
  data_url : String
  root_dir : String
  executed : Bool
  initialized : Bool
  downloads : Nat
  deps_changed : Bool
  packages : PackageConfigs
  config_store : List Config
  query_local_db : Bool
  deriving DecidableEq, Repr

/-- Freshly constructed orchestrator. -/
def ResponseData.fresh : ResponseData :=
  { request := [], dependency_tree := ResponseTree.empty, download_dependencies_ := [],
    dep_ids := [], host := "", data_url := "data", root_dir := "", executed := false,
    initialized := false, downloads := 0, deps_changed := false, packages := [],
    config_store := [], query_local_db := true }

/-- State of the orchestrator together with the world. -/
abbrev Sys := ResponseData × World

/-! ## Storage layout and file system -/

/-- Modelled from the spec: source directory of a package. -/
def getDirSrc (env : Env) (p : Package) : String :=
  env.storage_dir_src ++ "/" ++ p.ppath.toFileSystemPath ++ "/" ++ p.version.str

/-- Modelled from the spec: object directory of a package. -/
def getDirObj (env : Env) (p : Package) : String :=
  env.storage_dir_obj ++ "/" ++ p.ppath.toFileSystemPath ++ "/" ++ p.version.str

/-- Modelled from the spec: stamp file, the sibling `<version>.md5`. -/
def getStampFilename (env : Env) (p : Package) : String :=
  getDirSrc env p ++ ".md5"

/-- White space of the C locale. -/
def isspace (c : Char) : Bool :=
  c = ' ' || c = '\t' || c = '\n' || c = '\r' || c.toNat = 11 || c.toNat = 12

/-- Token read by `ifile >> file_md5` from the content of a file. -/
def readWord (content : String) : String :=
  String.mk ((content.data.dropWhile isspace).takeWhile (fun c => !isspace c))

namespace World

/-- Test `fs::exists`. -/
def fs_exists (w : World) (p : String) : Bool :=
  w.dirs.contains p || w.files.any (fun f => f.1 == p)

/-- Whether `p` is `dir` or lies below it. -/
def within (dir p : String) : Bool :=
  p == dir || (dir.data ++ ['/']).isPrefixOf p.data

/-- Removal `fs::remove_all`. -/
def remove_all (w : World) (dir : String) : World :=
  { w with dirs := w.dirs.filter (fun d => !within dir d)
           files := w.files.filter (fun f => !within dir f.1) }

/-- Removal `fs::remove` of a file. -/
def remove (w : World) (p : String) : World :=
  { w with files := w.files.filter (fun f => !(f.1 == p)) }

/-- Content of a file, when it can be opened. -/
def read (w : World) (p : String) : Option String :=
  (w.files.find? (fun f => f.1 == p)).map Prod.snd

/-- Writing `write_file`. -/
def write_file (w : World) (p content : String) : World :=
  { w with files := (p, content) :: w.files.filter (fun f => !(f.1 == p)) }

/-- Creation of a directory. -/
def create_directories (w : World) (p : String) : World :=
  if w.dirs.contains p then w else { w with dirs := p :: w.dirs }

end World

/-- Modelled from the spec: `cleanPackages` deletes the artifacts of a target
from both storage roots and from the indexes. -/
def cleanPackages (env : Env) (p : Package) (w : World) : World :=
  let w1 := (w.remove_all (getDirSrc env p)).remove_all (getDirObj env p)
  { w1 with index_src := StdMap.erase cmpStr p.target_name w1.index_src
            index_obj := StdMap.erase cmpStr p.target_name w1.index_obj }

/-- Path of an entry after the move below the unpack directory `ud` of
`version_dir`: every child other than `ud` and the manifest goes below `ud`. -/
def move_under (env : Env) (version_dir ud p : String) : String :=
  let pre := version_dir.data ++ ['/']
  if pre.isPrefixOf p.data then
    let r := p.data.drop pre.length
    let top := String.mk (r.takeWhile (fun c => c != '/'))
    if version_dir ++ "/" ++ top == ud || top == env.cppan_filename then p
    else ud ++ "/" ++ String.mk r
  else p

/-! ## Reconciliation of the root dependencies (`download_dependencies`, tail) -/

/-- Inner double loop of the reconciliation: every child of the resolved graph
that some current root entry is root of goes to `to_add`, and that root
entry's path to `to_remove`. -/
def collect_matches (dds : DownloadDependencies) (deps2 : Packages) :
    Packages × List String :=
  deps2.foldl
    (fun acc root_dep =>
      dds.foldl
        (fun acc2 child_dep =>
          if root_dep.2.ppath.is_root_of child_dep.2.ppath then
            (StdMap.insert cmpStr child_dep.2.ppath.str child_dep.2.toPackage acc2.1,
             StdMap.insert cmpStr root_dep.2.ppath.str () acc2.2)
          else acc2)
        acc)
    (([] : Packages), ([] : List (String × Unit)))
  |> fun acc => (acc.1, StdMap.keys acc.2)

/-- One turn of the reconciliation loop for the resolved node `dd`. -/
def reconcile_step (dds : DownloadDependencies) (deps2 : Packages)
    (dd : DownloadDependency) : Res Packages :=
  if !dd.flags.pfDirectDependency then Res.ok deps2
  else
    match StdMap.find cmpStr dd.ppath.str deps2 with
    | none =>
      let m := collect_matches dds deps2
      if m.1.isEmpty then Res.fail "cannot match dependency" deps2
      else
        let removed := m.2.foldl (fun acc r => StdMap.erase cmpStr r acc) deps2
        Res.ok (m.1.foldl (fun acc a => StdMap.insert cmpStr a.1 a.2 acc) removed)
    | some _ =>
      Res.ok (StdMap.update cmpStr dd.ppath.str
        (fun d => Package.createNames
          { d with version := dd.version, flags := d.flags.or dd.flags }) deps2)

/-- Reconciliation of the requested set against the resolved graph: the loop
over all resolved nodes, in the order of their ids. -/
def reconcile (dds : DownloadDependencies) (deps : Packages) : Res Packages :=
  Res.forIn (fun dd deps2 => reconcile_step dds deps2 dd.2) dds deps

/-! ## The steps of the pipeline -/

/-- The operation `ResponseData::init`. -/
def init (s : ResponseData) (config : Option Config) (host root_dir : String) :
    ResponseData :=
  if s.executed || s.initialized then s
  else
    { s with
      host := host
      root_dir := root_dir
      packages := StdMap.modify cmpPackage Package.root PackageConfig.default
        (fun pc => { pc with config := config }) s.packages
      initialized := true }

/-- Insertion into a `std::set<int>`. -/
def insert_id (i : Int) : List Int → List Int
  | [] => [i]
  | j :: js => if i < j then i :: j :: js else if i = j then j :: js else j :: insert_id i js

/-- The ids under the `dependencies` node, or `none` when one of them does
not convert to an integer. -/
def read_dependency_ids : List (Option Int) → List Int → Option (List Int)
  | [], idx => some idx
  | none :: _, _ => none
  | some i :: rest, idx => read_dependency_ids rest (insert_id i idx)

/-- Body of the loop of `extractDependencies` for one entry of `packages`. -/
def extract_node (env : Env) (v : String × PackageTree) (sw : Sys) : Res Sys :=
  match v.2.id with
  | none => Res.fail "No such node (id)" sw
  | some id =>
  match v.2.version with
  | none => Res.fail "No such node (version)" sw
  | some version =>
  match v.2.flags with
  | none => Res.fail "No such node (flags)" sw
  | some flags =>
  match v.2.md5 with
  | none => Res.fail "No such node (md5)" sw
  | some md5 =>
    let p : Package := Package.createNames
      { ppath := ⟨v.1⟩, version := ⟨version⟩, flags := flags, target_name := "" }
    let s1 : ResponseData :=
      { sw.1 with dep_ids := StdMap.modify cmpPackage p (0 : Int) (fun _ => id) sw.1.dep_ids }
    let sw2 : Sys :=
      if sw.2.fs_exists (getDirSrc env p) then
        match env.load_config (getDirSrc env p) with
        | Except.ok c =>
          ({ s1 with
             config_store := s1.config_store ++ [c]
             packages := StdMap.modify cmpPackage p PackageConfig.default
               (fun pc => { pc with config := some c }) s1.packages }, sw.2)
        | Except.error _ => (s1, sw.2.remove_all (getDirSrc env p))
      else (s1, sw.2)
    match (match v.2.dependencies with
           | none => some []
           | some l => read_dependency_ids l []) with
    | none => Res.fail "conversion of data to type int failed" sw2
    | some idx =>
      let d : DownloadDependency :=
        { toPackage := p, md5 := md5, id_dependencies := idx, has_map := true }
      Res.ok ({ sw2.1 with
                download_dependencies_ := StdMap.modify cmpInt id DownloadDependency.default
                  (fun _ => d) sw2.1.download_dependencies_ }, sw2.2)

/-- The step `ResponseData::extractDependencies`. -/
def extractDependencies (env : Env) (sw : Sys) : Res Sys :=
  match sw.1.dependency_tree.packages with
  | none => Res.fail "No such node (packages)" sw
  | some remote_packages => Res.forIn (extract_node env) remote_packages sw

/-- The test `must_download` on the md5 read from the stamp and the md5 of
the node. -/
def must_download (file_md5 md5 : String) : Bool :=
  file_md5 != md5 || md5 == "" || file_md5 == ""

/-- The md5 read from the stamp file of a node (empty when it cannot be
opened). -/
def stamp_md5 (env : Env) (d : DownloadDependency) (w : World) : String :=
  match w.read (getStampFilename env d.toPackage) with
  | some content => readWord content
  | none => ""

/-- Whether the loop of `download_and_unpack` skips the node. -/
def skips (env : Env) (d : DownloadDependency) (w : World) : Bool :=
  w.fs_exists (getDirSrc env d.toPackage) && !must_download (stamp_md5 env d w) d.md5

/-- The lambda `add_config`: a configuration read from the source directory
is stored and attached to the entry of the package, marked as downloaded. -/
def add_config (env : Env) (d : DownloadDependency) (s : ResponseData) :
    Except String (Config × ResponseData) :=
  match env.load_config (getDirSrc env d.toPackage) with
  | Except.error e => Except.error e
  | Except.ok c =>
    Except.ok ({ c with downloaded := true },
      { s with
        config_store := s.config_store ++ [c]
        packages := StdMap.modify cmpPackage d.toPackage PackageConfig.default
          (fun pc => { pc with config := some { c with downloaded := true } }) s.packages })

/-- The entries of an archive created below the source directory. -/
def unpack_into (version_dir : String) (entries : List (String × Bool)) (w : World) : World :=
  entries.foldl
    (fun w e =>
      if e.2 then w.create_directories (version_dir ++ "/" ++ e.1)
      else w.write_file (version_dir ++ "/" ++ e.1) "")
    (w.create_directories version_dir)

/-- The move of the unpacked entries below the unpack directory. -/
def move_all (env : Env) (version_dir ud : String) (w : World) : World :=
  { w with
    dirs := w.dirs.map (move_under env version_dir ud)
    files := w.files.map (fun f => (move_under env version_dir ud f.1, f.2)) }

/-- The url `package_url` of the archive of a node. -/
def package_url (s : ResponseData) (d : DownloadDependency) : String :=
  s.host ++ "/" ++ s.data_url ++ "/" ++ d.ppath.toFileSystemPath ++ "/" ++ d.version.str
    ++ ".tar.gz"

/-- The file `fn` the archive of a node is downloaded to. -/
def archive_file (env : Env) (d : DownloadDependency) : String :=
  getDirSrc env d.toPackage ++ ".tar.gz"

/-- Download, check and unpacking of one node, once the lock is held
(`download_and_unpack`, from `cleanPackages` to the end of the loop body). -/
def fetch_locked (env : Env) (d : DownloadDependency) (sw : Sys) : Res Sys :=
  let version_dir := getDirSrc env d.toPackage
  let md5file := getStampFilename env d.toPackage
  let w1 := cleanPackages env d.toPackage sw.2
  let fn := archive_file env d
  let w2 : World := { w1 with net_log := w1.net_log ++ [package_url sw.1 d] }
  match env.download_file (package_url sw.1 d) with
  | Except.error e => Res.fail e (sw.1, w2)
  | Except.ok (bytes, dl_md5) =>
    let w3 := w2.write_file fn bytes
    let s1 : ResponseData := { sw.1 with downloads := sw.1.downloads + 1 }
    if dl_md5 != d.md5 then
      Res.fail ("md5 does not match for package '" ++ d.ppath.str ++ "'") (s1, w3)
    else
      let w4 := w3.write_file md5file d.md5
      match env.unpack_file bytes with
      | Except.error e => Res.fail e (s1, w4.remove_all version_dir)
      | Except.ok entries =>
        let w6 := (unpack_into version_dir entries w4).remove fn
        match add_config env d s1 with
        | Except.error e => Res.fail e (s1, w6)
        | Except.ok (c, s2) =>
          if c.project.unpack_directory == "" then Res.ok (s2, w6)
          else
            let ud := version_dir ++ "/" ++ c.project.unpack_directory
            if w6.fs_exists ud then
              Res.fail ("Cannot create unpack_directory '" ++ ud
                ++ "' because fs object with the same name alreasy exists") (s2, w6)
            else Res.ok (s2, move_all env version_dir ud (w6.create_directories ud))

/-- Body of the loop of `download_and_unpack` for one node. When another
process holds the lock on the stamp file, the orchestrator waits for it and
reads the configuration that process left. -/
def download_and_unpack_node (env : Env) (d : DownloadDependency) (sw : Sys) :
    Res Sys :=
  if skips env d sw.2 then Res.ok sw
  else if sw.2.peer_locks.contains (getStampFilename env d.toPackage) then
    let w1 := env.peer_done (getStampFilename env d.toPackage) sw.2
    match add_config env d sw.1 with
    | Except.error e => Res.fail e (sw.1, w1)
    | Except.ok (_, s1) => Res.ok (s1, w1)
  else fetch_locked env d sw

/-- The step `ResponseData::download_and_unpack`. -/
def download_and_unpack (env : Env) (sw : Sys) : Res Sys :=
  Res.forIn (fun dd => download_and_unpack_node env dd.2) sw.1.download_dependencies_ sw

/-- Body of the loop of `prepare_config` for one direct dependency, on the
declared edges of the project and the edges of the entry. -/
def prepare_dep (dep : Int × DownloadDependency) (acc : Packages × Packages) :
    Res (Packages × Packages) :=
  match StdMap.find cmpStr dep.2.ppath.str acc.1 with
  | none => Res.fail ("dependency '" ++ dep.2.ppath.str ++ "' is not found") acc
  | some i =>
    let d : Package :=
      { dep.2.toPackage with
        flags := { dep.2.flags with pfIncludeDirectories := i.2.flags.pfIncludeDirectories } }
    Res.ok
      (StdMap.update cmpStr dep.2.ppath.str
         (fun x => { x with version := d.version, flags := d.flags }) acc.1,
       StdMap.insert cmpStr d.ppath.str d acc.2)

/-- The id under which `dep_ids[p]` is found after the access. -/
def dep_id (p : Package) (dep_ids : List (Package × Int)) : Int :=
  match StdMap.find cmpPackage p dep_ids with
  | some e => e.2
  | none => 0

/-- The node `download_dependencies_[id]` after the access. -/
def node_at (id : Int) (dds : DownloadDependencies) : DownloadDependency :=
  match StdMap.find cmpInt id dds with
  | some e => e.2
  | none => DownloadDependency.default

/-- The operation `ResponseData::prepare_config` on the entry stored under the
key given (the argument of the source is a reference to such an entry).
Dereferencing a null `config` is rendered as a failure. The call
`c->post_download()` has no effect on the fields kept here. -/
def prepare_config (s : ResponseData) (key : Package) : Res ResponseData :=
  match StdMap.find cmpPackage key s.packages with
  | none => Res.ok s
  | some cc =>
    match cc.2.config with
    | none => Res.fail "null config" s
    | some c =>
      let p := cc.1
      let dep_ids := StdMap.modify cmpPackage p (0 : Int) id s.dep_ids
      let dds := StdMap.modify cmpInt (dep_id p dep_ids) DownloadDependency.default id
        s.download_dependencies_
      let direct := (node_at (dep_id p dep_ids) dds).getDirectDependencies dds
      let r := Res.forIn prepare_dep direct (c.project.dependencies, cc.2.dependencies)
      let entry : PackageConfig :=
        { config := some
            { c with
              is_dependency := true
              pkg := p
              project := { c.project with pkg := p, dependencies := r.state.1 } }
          dependencies := r.state.2 }
      let s1 : ResponseData :=
        { s with
          dep_ids := dep_ids
          download_dependencies_ := dds
          packages := StdMap.modify cmpPackage p PackageConfig.default (fun _ => entry)
            s.packages }
      match r with
      | Res.ok _ => Res.ok s1
      | Res.fail m _ => Res.fail m s1

/-- The step `ResponseData::post_download`. -/
def post_download (s : ResponseData) : Res ResponseData :=
  Res.forIn (fun cc s => prepare_config s cc.1) s.packages s

/-- Position of the entry found by `find`. -/
def position {K V : Type} (cmp : K → K → Ordering) (k : K) : List (K × V) → Option Nat
  | [] => none
  | e :: es =>
    if cmp k e.1 = Ordering.eq then some 0 else (position cmp k es).map (fun i => i + 1)

/-- The iterator `ResponseData::begin()`, as a position in the package map. -/
def ResponseData.begin (s : ResponseData) : Nat :=
  match position cmpPackage Package.root s.packages with
  | some i => i + 1
  | none => 0

/-- The iterator `ResponseData::end()`. -/
def ResponseData.«end» (s : ResponseData) : Nat := s.packages.length

/-- The entries visited by an iteration from `begin()` to `end()`. -/
def ResponseData.range (s : ResponseData) : List (Package × PackageConfig) :=
  (s.packages.take s.«end»).drop s.begin

/-- The step `ResponseData::write_index`. -/
def write_index (env : Env) (s : ResponseData) (w : World) : World :=
  { w with
    index_src := s.range.foldl
      (fun pkgs cc => StdMap.modify cmpStr cc.1.target_name "" (fun _ => getDirSrc env cc.1) pkgs)
      w.index_src
    index_obj := s.range.foldl
      (fun pkgs cc => StdMap.modify cmpStr cc.1.target_name "" (fun _ => getDirObj env cc.1) pkgs)
      w.index_obj }

/-- Assignment to `packages[Package()].dependencies`. -/
def set_root_dependencies (deps : Packages) (s : ResponseData) : ResponseData :=
  { s with
    packages := StdMap.modify cmpPackage Package.root PackageConfig.default
      (fun pc => { pc with dependencies := deps }) s.packages }

/-- The value `packages[Package()].dependencies`. -/
def root_dependencies (s : ResponseData) : Packages :=
  match StdMap.find cmpPackage Package.root s.packages with
  | some cc => cc.2.dependencies
  | none => []

/-- Tail of `download_dependencies`: the root dependencies are set to the
requested set and reconciled in place (an exception leaves them as the loop
had brought them); `executed` is set last. -/
def finish (deps : Packages) (sw : Sys) : Res Sys :=
  let s1 := set_root_dependencies deps sw.1
  match reconcile s1.download_dependencies_ (root_dependencies s1) with
  | Res.ok r => Res.ok ({ set_root_dependencies r s1 with executed := true }, sw.2)
  | Res.fail m r => Res.fail m (set_root_dependencies r s1, sw.2)

/-- The value `get<int>("api")` when the key is there (0 when it is not), or
the exception of the conversion. -/
def read_api : IntField → Except String Int
  | IntField.absent => Except.ok 0
  | IntField.int n => Except.ok n
  | IntField.notInt => Except.error "conversion of data to type int failed"

/-- The steps `extractDependencies`, `download_and_unpack`, `post_download`
and `write_index`, in this order. -/
def run_steps (env : Env) (sw : Sys) : Res Sys :=
  (((extractDependencies env sw).andThen (download_and_unpack env)).andThen
    (fun sw1 =>
      match post_download sw1.1 with
      | Res.ok s => Res.ok (s, sw1.2)
      | Res.fail m s => Res.fail m (s, sw1.2))).andThen
    (fun sw2 => Res.ok (sw2.1, write_index env sw2.1 sw2.2))

/-- Part of `download_dependencies` between the receipt of the response and
the reconciliation: validation of the envelope, then the steps. -/
def process_response (env : Env) (sw : Sys) : Res Sys :=
  match read_api sw.1.dependency_tree.api with
  | Except.error e => Res.fail e sw
  | Except.ok api =>
    match sw.1.dependency_tree.error with
    | some e => Res.fail e sw
    | none =>
      if api = 0 then Res.fail "Api version is missing in the response" sw
      else if api ≠ 1 then Res.fail "Bad api version" sw
      else
        let data_url := match sw.1.dependency_tree.data_dir with
          | some dir => dir
          | none => "data"
        run_steps env ({ sw.1 with data_url := data_url }, sw.2)

/-- Part of `download_dependencies` from the preparation of the request to
`write_index`: everything between the guard and the reconciliation. -/
def resolve_and_fetch (env : Env) (deps : Packages) (sw : Sys) : Res Sys :=
  let s1 : ResponseData :=
    { sw.1 with
      request := deps.foldl (fun r d => put_child d.2.ppath.str d.2.version.str r)
        sw.1.request }
  let url := sw.1.host ++ "/api/find_dependencies"
  let w1 : World := { sw.2 with net_log := sw.2.net_log ++ [url] }
  match env.url_post url s1.request with
  | Except.error e => Res.fail e (s1, w1)
  | Except.ok tree => process_response env ({ s1 with dependency_tree := tree }, w1)

/-- The operation `ResponseData::download_dependencies`. -/
def download_dependencies (env : Env) (deps : Packages) (sw : Sys) : Res Sys :=
  if sw.1.executed || !sw.1.initialized then Res.ok sw
  else if deps.isEmpty then Res.ok sw
  else (resolve_and_fetch env deps sw).andThen (finish deps)

/-! ## Predicates used in the statements -/

/-- The fields that decide whether a later call runs the pipeline again, and
against which host, are the same in both states. -/
def same_control (s t : ResponseData) : Prop :=
  t.executed = s.executed ∧ t.initialized = s.initialized ∧ t.host = s.host
    ∧ t.root_dir = s.root_dir

instance (s t : ResponseData) : Decidable (same_control s t) := by
  unfold same_control
  infer_instance

/-- A map of edges is tidy when every entry is keyed by the string of its
path and no entry is root of an entry with another path. -/
def Tidy (deps : Packages) : Prop :=
  (∀ e ∈ deps, e.1 = e.2.ppath.str)
    ∧ ∀ a ∈ deps, ∀ b ∈ deps, a.2.ppath.is_root_of b.2.ppath = true → a.2.ppath = b.2.ppath

instance (deps : Packages) : Decidable (Tidy deps) := by
  unfold Tidy
  infer_instance

/-- The entries of a package map come in strictly increasing key order, as
those of a `std::map` do. -/
def Ordered (m : PackageConfigs) : Prop :=
  m.Pairwise (fun a b => cmpPackage a.1 b.1 = Ordering.lt)

instance (m : PackageConfigs) : Decidable (Ordered m) := by
  unfold Ordered
  infer_instance

/-- Whether a package is the sentinel root: empty path and empty version. -/
def Package.is_root (p : Package) : Bool :=
  p.ppath.str == "" && p.version.str == ""

/-- The resolved node of a package: `download_dependencies_[dep_ids[p]]`. -/
def resolved_node (s : ResponseData) (p : Package) : DownloadDependency :=
  node_at (dep_id p s.dep_ids) s.download_dependencies_

/-! ## Concrete data for the scenarios -/

/-- A configuration without dependencies and without unpack directory. -/
def demo_config : Config :=
  { is_dependency := false, downloaded := false, pkg := Package.root,
    project := { pkg := Package.root, dependencies := [], unpack_directory := "" } }

/-- A world with an empty disk and no network traffic so far. -/
def World.empty : World :=
  { dirs := [], files := [], peer_locks := [], index_src := [], index_obj := [], net_log := [] }

/-- An environment whose remote index answers every request with the given
document, whose archives all have the digest `abc` and unpack into a manifest
and a directory, and in which every source directory holds `demo_config`. -/
def demo_env (answer : ResponseTree) : Env :=
  { storage_dir_src := "/s"
    storage_dir_obj := "/o"
    cppan_filename := "cppan.yml"
    url_post := fun _ _ => Except.ok answer
    download_file := fun _ => Except.ok ("bytes", "abc")
    unpack_file := fun _ => Except.ok [("cppan.yml", false), ("src", true)]
    load_config := fun _ => Except.ok demo_config
    peer_done := fun f w => { w with peer_locks := w.peer_locks.filter (fun l => !(l == f)) } }

/-- An initialised orchestrator that has not run yet. -/
def demo_start : ResponseData := init ResponseData.fresh (some demo_config) "http://h" "/r"

/-- A requested package. -/
def requested (path version : String) : String × Package :=
  (path, { ppath := ⟨path⟩, version := ⟨version⟩, flags := DependencyFlags.none,
           target_name := path ++ "-" ++ version })

/-- A node of a response, with the digest `abc` and no dependencies. -/
def demo_node (id : Int) (direct : Bool) : PackageTree :=
  { id := some id, version := some "1.0.0",
    flags := some { pfDirectDependency := direct, pfIncludeDirectories := false, others := 0 },
    md5 := some "abc", dependencies := none }

/-- A well-formed answer of the remote index with the given nodes. -/
def demo_answer (nodes : List (String × PackageTree)) : ResponseTree :=
  { api := IntField.int 1, error := none, data_dir := none, packages := some nodes }

/-- An answer of the remote index that reports an error. -/
def refusal : ResponseTree :=
  { api := IntField.int 1, error := some "package not found", data_dir := none,
    packages := none }

/-- An answer that reports an error and whose `api` field is not a number. -/
def garbled_refusal : ResponseTree :=
  { api := IntField.notInt, error := some "package not found", data_dir := none,
    packages := none }

/-- Scenario 4: the index resolves `org.foo.a`, `org.foo.b` and `org.foo.c`,
all direct dependencies. -/
def answer_abc : ResponseTree :=
  demo_answer [("org.foo.a", demo_node 1 true), ("org.foo.b", demo_node 2 true),
    ("org.foo.c", demo_node 3 true)]

/-- The index resolves `org.foo.a` and, below it, `org.foo.a.b`. -/
def answer_nested : ResponseTree :=
  demo_answer [("org.foo.a", demo_node 1 true), ("org.foo.a.b", demo_node 2 true)]

/-- The answer of scenario 4 when the index numbers its nodes from 0. -/
def answer_abc_from_zero : ResponseTree :=
  demo_answer [("org.foo.a", demo_node 0 true), ("org.foo.b", demo_node 1 true),
    ("org.foo.c", demo_node 2 true)]

/-- A package with the given path, version 1 and the given value of
`IncludeDirectories`. -/
def edge (path : String) (include_directories : Bool) : Package :=
  { ppath := ⟨path⟩, version := ⟨"1"⟩,
    flags := { pfDirectDependency := true, pfIncludeDirectories := include_directories,
               others := 0 },
    target_name := path ++ "-1" }

/-- A state in which the entry of `org.a` already holds an edge to `org.b`
without `IncludeDirectories`, while the project of `org.a` declares that edge
with the flag; `org.b` is the direct dependency of the resolved node of `org.a`. -/
def stale_entry_state : ResponseData :=
  { ResponseData.fresh with
    initialized := true
    download_dependencies_ :=
      [(1, { toPackage := edge "org.a" false, md5 := "abc", id_dependencies := [2],
             has_map := true }),
       (2, { toPackage := edge "org.b" false, md5 := "abc", id_dependencies := [],
             has_map := true })]
    dep_ids := [(edge "org.a" false, 1), (edge "org.b" false, 2)]
    packages :=
      [(edge "org.a" false,
        { config := some
            { demo_config with
              project := { demo_config.project with dependencies := [("org.b", edge "org.b" true)] } }
          dependencies := [("org.b", edge "org.b" false)] })] }

/-- The same state with the entry of `org.a` holding no edge yet, as when the
entry was created during the run. -/
def fresh_entry_state : ResponseData :=
  { stale_entry_state with
    packages := stale_entry_state.packages.map
      (fun cc => (cc.1, { cc.2 with dependencies := [] })) }

/-- Scenario 3: the index advertises the digest `xyz` for `org.foo`, while
the archive served hashes to `abc`. -/
def answer_wrong_md5 : ResponseTree :=
  demo_answer [("org.foo", { demo_node 1 true with md5 := some "xyz" })]

/-- Scenario 1: the index resolves `org.foo` alone. -/
def answer_foo : ResponseTree := demo_answer [("org.foo", demo_node 1 true)]

/-- The world that a first run of scenario 1 leaves. -/
def world_after_foo : World :=
  (download_dependencies (demo_env answer_foo) [requested "org.foo" "*"]
    (demo_start, World.empty)).state.2

/-- A fresh orchestrator that has extracted the answer of scenario 1 in the
world that the first run left. -/
def second_orchestrator : Sys :=
  (extractDependencies (demo_env answer_foo)
    ({ demo_start with dependency_tree := answer_foo }, world_after_foo)).state

/-- The node `org.foo` as resolved by an index that gives no digest. -/
def node_without_md5 : DownloadDependency :=
  { toPackage := { ppath := ⟨"org.foo"⟩, version := ⟨"1.0.0"⟩,
                   flags := { pfDirectDependency := true, pfIncludeDirectories := false,
                              others := 0 },
                   target_name := "org.foo-1.0.0" },
    md5 := "", id_dependencies := [], has_map := true }

/-- A fresh orchestrator whose resolved graph is `node_without_md5`. -/
def orchestrator_without_md5 : ResponseData :=
  { demo_start with download_dependencies_ := [(1, node_without_md5)] }

/-- A disk on which the source directory of `org.foo` is present and its
stamp file is empty, while another process holds the lock on the stamp. -/
def world_locked_by_peer : World :=
  { World.empty with
    dirs := ["/s/org/foo/1.0.0"]
    files := [("/s/org/foo/1.0.0.md5", "")]
    peer_locks := ["/s/org/foo/1.0.0.md5"] }

/-- First run of the fetch step over `node_without_md5`. -/
def first_run_without_md5 : Res Sys :=
  download_and_unpack (demo_env answer_foo) (orchestrator_without_md5, world_locked_by_peer)

/-- Second run, by a fresh orchestrator, from the disk the first run left. -/
def second_run_without_md5 : Res Sys :=
  download_and_unpack (demo_env answer_foo)
    (orchestrator_without_md5, first_run_without_md5.state.2)

/-- Every edge of `deps2` either sits under the key and path of a requested
entry, or sits under the path of a resolved node that some requested entry is
root of. -/
def Traced (deps : Packages) (dds : DownloadDependencies) (deps2 : Packages) : Prop :=
  ∀ e ∈ deps2,
    (∃ q ∈ deps, e.1 = q.1 ∧ e.2.ppath = q.2.ppath)
      ∨ ∃ c ∈ dds, e.1 = c.2.ppath.str ∧ e.2.ppath = c.2.ppath
          ∧ ∃ q ∈ deps, q.2.ppath.is_root_of c.2.ppath = true

instance (deps : Packages) (dds : DownloadDependencies) (deps2 : Packages) :
    Decidable (Traced deps dds deps2) := by
  unfold Traced
  infer_instance

/-- The index resolves `org.foo.a` as a direct dependency and `org.foo.b` as a
transitive one (without `DirectDependency`). -/
def answer_with_transitive : ResponseTree :=
  demo_answer [("org.foo.a", demo_node 1 true), ("org.foo.b", demo_node 2 false)]

/-- The index resolves nothing: its `packages` table is empty. -/
def answer_empty : ResponseTree := demo_answer []

/-- The index resolves `org.foo.master` at version `1.0.0` and `org.foo` at
version `master`, both with the digest `abc`: the source directory of the
first lies below the source directory of the second. -/
def answer_master : ResponseTree :=
  demo_answer [("org.foo.master", demo_node 1 true),
    ("org.foo", { demo_node 2 true with version := some "master" })]

/-- First run of the fetch step over the nodes of `answer_master`, by a fresh
orchestrator on an empty disk. -/
def first_run_master : Res Sys :=
  download_and_unpack (demo_env answer_master)
    (extractDependencies (demo_env answer_master)
      ({ demo_start with dependency_tree := answer_master }, World.empty)).state

/-- Second run over the same nodes, by a fresh orchestrator, from the disk the
first run left. -/
def second_run_master : Res Sys :=
  download_and_unpack (demo_env answer_master)
    (extractDependencies (demo_env answer_master)
      ({ demo_start with dependency_tree := answer_master }, first_run_master.state.2)).state

/-! ## Facts about the orders and the maps -/

theorem cmpChars_eq_iff (a b : List Char) : cmpChars a b = Ordering.eq ↔ a = b := by
  induction a generalizing b with
  | nil => cases b <;> simp [cmpChars]
  | cons x xs ih =>
    cases b with
    | nil => simp [cmpChars]
    | cons y ys =>
      simp only [cmpChars]
      by_cases h1 : x.toNat < y.toNat
      · simp only [h1, if_true]
        constructor
        · intro h; cases h
        · intro h
          injection h with hx _
          subst hx
          exact absurd h1 (lt_irrefl _)
      · by_cases h2 : y.toNat < x.toNat
        · simp only [h1, h2, if_true, if_false]
          constructor
          · intro h; cases h
          · intro h
            injection h with hx _
            subst hx
            exact absurd h2 (lt_irrefl _)
        · simp only [h1, h2, if_false]
          have hxy : x = y := by
            have h3 : x.toNat = y.toNat := by omega
            have h4 := congrArg Char.ofNat h3
            simpa using h4
          subst hxy
          rw [ih ys]
          simp

theorem cmpStr_eq_iff (a b : String) : cmpStr a b = Ordering.eq ↔ a = b := by
  unfold cmpStr
  rw [cmpChars_eq_iff]
  constructor
  · intro h
    cases a; cases b
    simp_all
  · intro h
    rw [h]

theorem cmpStr_self (a : String) : cmpStr a a = Ordering.eq := (cmpStr_eq_iff a a).2 rfl

theorem cmpInt_eq_iff (a b : Int) : cmpInt a b = Ordering.eq ↔ a = b := by
  unfold cmpInt
  by_cases h1 : a < b
  · simp only [h1, if_true]
    constructor
    · intro h; cases h
    · intro h; omega
  · by_cases h2 : b < a
    · simp only [h1, h2, if_true, if_false]
      constructor
      · intro h; cases h
      · intro h; omega
    · simp only [h1, h2, if_false]
      constructor
      · intro _; omega
      · intro _; trivial

theorem cmpPackage_eq_iff (a b : Package) :
    cmpPackage a b = Ordering.eq ↔ a.ppath = b.ppath ∧ a.version = b.version := by
  unfold cmpPackage
  have hp : a.ppath = b.ppath ↔ a.ppath.str = b.ppath.str := by
    cases a.ppath; cases b.ppath; simp
  have hv : a.version = b.version ↔ a.version.str = b.version.str := by
    cases a.version; cases b.version; simp
  rw [hp, hv, ← cmpStr_eq_iff, ← cmpStr_eq_iff]
  cases h : cmpStr a.ppath.str b.ppath.str <;> simp

theorem cmpPackage_self (a : Package) : cmpPackage a a = Ordering.eq :=
  (cmpPackage_eq_iff a a).2 ⟨rfl, rfl⟩

namespace StdMap

variable {K V : Type}

theorem find_some_mem (cmp : K → K → Ordering) (k : K) (m : List (K × V)) (e : K × V)
    (h : find cmp k m = some e) : e ∈ m ∧ cmp k e.1 = Ordering.eq := by
  induction m with
  | nil => simp [find] at h
  | cons x xs ih =>
    simp only [find] at h
    by_cases hx : cmp k x.1 = Ordering.eq
    · simp only [hx, if_true, Option.some.injEq] at h
      subst h
      exact ⟨List.mem_cons_self _ _, hx⟩
    · simp only [hx, if_false] at h
      exact ⟨List.mem_cons_of_mem _ (ih h).1, (ih h).2⟩

theorem find_none_iff (cmp : K → K → Ordering) (k : K) (m : List (K × V)) :
    find cmp k m = none ↔ ∀ e ∈ m, cmp k e.1 ≠ Ordering.eq := by
  induction m with
  | nil => simp [find]
  | cons x xs ih =>
    simp only [find]
    by_cases hx : cmp k x.1 = Ordering.eq
    · simp [hx]
    · simp [hx, ih]

theorem find_isSome_iff (cmp : K → K → Ordering) (k : K) (m : List (K × V)) :
    (find cmp k m).isSome = true ↔ ∃ e ∈ m, cmp k e.1 = Ordering.eq := by
  cases h : find cmp k m with
  | none =>
    have h2 := (find_none_iff cmp k m).1 h
    simp only [Option.isSome_none, Bool.false_eq_true, false_iff, not_exists, not_and]
    exact h2
  | some e =>
    simp only [Option.isSome_some, true_iff]
    exact ⟨e, find_some_mem cmp k m e h⟩

theorem mem_place (cmp : K → K → Ordering) (k : K) (v : V) (m : List (K × V)) (e : K × V) :
    e ∈ place cmp k v m ↔ e = (k, v) ∨ e ∈ m := by
  induction m with
  | nil => simp [place]
  | cons x xs ih =>
    simp only [place]
    by_cases hc : cmp k x.1 = Ordering.lt
    · simp only [hc, if_true, List.mem_cons]
    · simp only [hc, if_false, List.mem_cons, ih]
      constructor
      · rintro (h | h | h)
        · exact Or.inr (Or.inl h)
        · exact Or.inl h
        · exact Or.inr (Or.inr h)
      · rintro (h | h | h)
        · exact Or.inr (Or.inl h)
        · exact Or.inl h
        · exact Or.inr (Or.inr h)

theorem mem_update (cmp : K → K → Ordering) (k : K) (f : V → V) (m : List (K × V))
    (e : K × V) (h : e ∈ update cmp k f m) :
    ∃ x ∈ m, e.1 = x.1 ∧ (e.2 = x.2 ∨ e.2 = f x.2) := by
  induction m with
  | nil => simp [update] at h
  | cons y ys ih =>
    simp only [update] at h
    by_cases hc : cmp k y.1 = Ordering.eq
    · simp only [hc, if_true] at h
      rcases List.mem_cons.1 h with h1 | h1
      · exact ⟨y, List.mem_cons_self _ _, by rw [h1], Or.inr (by rw [h1])⟩
      · exact ⟨e, List.mem_cons_of_mem _ h1, rfl, Or.inl rfl⟩
    · simp only [hc, if_false] at h
      rcases List.mem_cons.1 h with h1 | h1
      · exact ⟨y, List.mem_cons_self _ _, by rw [h1], Or.inl (by rw [h1])⟩
      · obtain ⟨x, hx, hx1, hx2⟩ := ih h1
        exact ⟨x, List.mem_cons_of_mem _ hx, hx1, hx2⟩

theorem update_keys (cmp : K → K → Ordering) (k : K) (f : V → V) (m : List (K × V)) :
    (update cmp k f m).map Prod.fst = m.map Prod.fst := by
  induction m with
  | nil => rfl
  | cons y ys ih =>
    simp only [update]
    by_cases hc : cmp k y.1 = Ordering.eq
    · simp [hc]
    · simp [hc, ih]

theorem update_ne_nil (cmp : K → K → Ordering) (k : K) (f : V → V) (m : List (K × V))
    (h : m ≠ []) : update cmp k f m ≠ [] := by
  intro h2
  have h3 := congrArg (List.map Prod.fst) h2
  rw [update_keys] at h3
  cases m with
  | nil => exact h rfl
  | cons x xs => simp at h3

theorem mem_insert (cmp : K → K → Ordering) (k : K) (v : V) (m : List (K × V)) (e : K × V)
    (h : e ∈ insert cmp k v m) : e = (k, v) ∨ e ∈ m := by
  unfold insert at h
  by_cases hf : (find cmp k m).isSome = true
  · simp only [hf, if_true] at h
    exact Or.inr h
  · simp only [hf] at h
    exact (mem_place cmp k v m e).1 h

theorem mem_insert_of_mem (cmp : K → K → Ordering) (k : K) (v : V) (m : List (K × V))
    (e : K × V) (h : e ∈ m) : e ∈ insert cmp k v m := by
  unfold insert
  by_cases hf : (find cmp k m).isSome = true
  · simp only [hf, if_true]
    exact h
  · simp only [hf]
    exact (mem_place cmp k v m e).2 (Or.inr h)

theorem insert_has_key (cmp : K → K → Ordering) (k : K) (v : V) (m : List (K × V))
    (hk : cmp k k = Ordering.eq) : ∃ e ∈ insert cmp k v m, cmp k e.1 = Ordering.eq := by
  unfold insert
  by_cases hf : (find cmp k m).isSome = true
  · simp only [hf, if_true]
    exact (find_isSome_iff cmp k m).1 hf
  · simp only [hf]
    exact ⟨(k, v), (mem_place cmp k v m _).2 (Or.inl rfl), hk⟩

theorem insert_fresh (cmp : K → K → Ordering) (k : K) (v : V) (m : List (K × V))
    (h : ∀ e ∈ m, cmp k e.1 ≠ Ordering.eq) : (k, v) ∈ insert cmp k v m := by
  unfold insert
  have hf : find cmp k m = none := (find_none_iff cmp k m).2 h
  simp only [hf, Option.isSome_none, Bool.false_eq_true, if_false]
  exact (mem_place cmp k v m _).2 (Or.inl rfl)

theorem mem_erase (cmp : K → K → Ordering) (k : K) (m : List (K × V)) (e : K × V) :
    e ∈ erase cmp k m ↔ e ∈ m ∧ cmp k e.1 ≠ Ordering.eq := by
  simp [erase]

theorem mem_modify (cmp : K → K → Ordering) (k : K) (d : V) (f : V → V) (m : List (K × V))
    (e : K × V) (h : e ∈ modify cmp k d f m) :
    e = (k, f d) ∨ ∃ x ∈ m, e.1 = x.1 ∧ (e.2 = x.2 ∨ e.2 = f x.2) := by
  unfold modify at h
  by_cases hf : (find cmp k m).isSome = true
  · simp only [hf, if_true] at h
    exact Or.inr (mem_update cmp k f m e h)
  · simp only [hf] at h
    rcases (mem_place cmp k (f d) m e).1 h with h1 | h1
    · exact Or.inl h1
    · exact Or.inr ⟨e, h1, rfl, Or.inl rfl⟩

theorem modify_found (cmp : K → K → Ordering) (k : K) (d : V) (f : V → V) (m : List (K × V))
    (h : (find cmp k m).isSome = true) : modify cmp k d f m = update cmp k f m := by
  unfold modify
  simp only [h, if_true]

theorem modify_keeps_key (cmp : K → K → Ordering) (k : K) (d : V) (f : V → V)
    (m : List (K × V)) (e : K × V) (h : e ∈ m) :
    ∃ x ∈ modify cmp k d f m, x.1 = e.1 := by
  unfold modify
  by_cases hf : (find cmp k m).isSome = true
  · simp only [hf, if_true]
    have h1 : e.1 ∈ (update cmp k f m).map Prod.fst := by
      rw [update_keys]
      exact List.mem_map.2 ⟨e, h, rfl⟩
    obtain ⟨x, hx, hx1⟩ := List.mem_map.1 h1
    exact ⟨x, hx, hx1⟩
  · simp only [hf]
    exact ⟨e, (mem_place cmp k (f d) m e).2 (Or.inr h), rfl⟩

theorem modify_ne_nil (cmp : K → K → Ordering) (k : K) (d : V) (f : V → V)
    (m : List (K × V)) : modify cmp k d f m ≠ [] := by
  unfold modify
  by_cases hf : (find cmp k m).isSome = true
  · simp only [hf, if_true]
    apply update_ne_nil
    intro hm
    rw [hm] at hf
    simp [find] at hf
  · rw [if_neg hf]
    intro h
    have := (mem_place cmp k (f d) m (k, f d)).2 (Or.inl rfl)
    rw [h] at this
    cases this

theorem find_update (cmp : K → K → Ordering) (k : K) (f : V → V) (m : List (K × V))
    (e : K × V) (h : find cmp k m = some e) :
    find cmp k (update cmp k f m) = some (e.1, f e.2) := by
  induction m with
  | nil => simp [find] at h
  | cons y ys ih =>
    simp only [find] at h
    simp only [update]
    by_cases hc : cmp k y.1 = Ordering.eq
    · simp only [hc, if_true, Option.some.injEq] at h
      subst h
      simp [hc, find]
    · simp only [hc, if_false] at h
      simp only [hc, if_false, find]
      exact ih h

theorem find_place (cmp : K → K → Ordering) (k : K) (v : V) (m : List (K × V))
    (hk : cmp k k = Ordering.eq) (h : find cmp k m = none) :
    find cmp k (place cmp k v m) = some (k, v) := by
  induction m with
  | nil => simp [place, find, hk]
  | cons y ys ih =>
    simp only [find] at h
    by_cases hc : cmp k y.1 = Ordering.eq
    · simp [hc] at h
    · simp only [hc, if_false] at h
      simp only [place]
      by_cases hl : cmp k y.1 = Ordering.lt
      · simp [hl, find, hk]
      · simp only [hl, if_false, find, hc]
        exact ih h

theorem find_modify (cmp : K → K → Ordering) (k : K) (d : V) (f : V → V) (m : List (K × V))
    (hk : cmp k k = Ordering.eq) :
    ∃ e, find cmp k (modify cmp k d f m) = some e ∧
      (e = (k, f d) ∨ ∃ x, find cmp k m = some x ∧ e = (x.1, f x.2)) := by
  unfold modify
  cases hf : find cmp k m with
  | none =>
    simp only [Option.isSome_none, Bool.false_eq_true, if_false]
    exact ⟨(k, f d), find_place cmp k (f d) m hk hf, Or.inl rfl⟩
  | some x =>
    simp only [Option.isSome_some, if_true]
    exact ⟨(x.1, f x.2), find_update cmp k f m x hf, Or.inr ⟨x, rfl, rfl⟩⟩

theorem fold_erase_mem (rs : List String) (m : List (String × V)) (e : String × V) :
    e ∈ rs.foldl (fun acc r => erase cmpStr r acc) m ↔ e ∈ m ∧ e.1 ∉ rs := by
  induction rs generalizing m with
  | nil => simp
  | cons r rs ih =>
    simp only [List.foldl_cons, ih, mem_erase, List.mem_cons, not_or]
    constructor
    · rintro ⟨⟨h1, h2⟩, h3⟩
      refine ⟨h1, ?_, h3⟩
      intro h4
      exact h2 ((cmpStr_eq_iff _ _).2 h4.symm)
    · rintro ⟨h1, h2, h3⟩
      refine ⟨⟨h1, ?_⟩, h3⟩
      intro h4
      exact h2 ((cmpStr_eq_iff _ _).1 h4).symm

theorem fold_insert_all_sound (as : List (String × V)) (m : List (String × V))
    (e : String × V) (h : e ∈ as.foldl (fun acc a => insert cmpStr a.1 a.2 acc) m) :
    e ∈ as ∨ e ∈ m := by
  induction as generalizing m with
  | nil => exact Or.inr h
  | cons a as ih =>
    simp only [List.foldl_cons] at h
    rcases ih _ h with h1 | h1
    · exact Or.inl (List.mem_cons_of_mem _ h1)
    · rcases mem_insert cmpStr _ _ _ _ h1 with h2 | h2
      · exact Or.inl (h2 ▸ List.mem_cons_self _ _)
      · exact Or.inr h2

theorem fold_insert_all_mono (as : List (String × V)) (m : List (String × V))
    (e : String × V) (h : e ∈ m) : e ∈ as.foldl (fun acc a => insert cmpStr a.1 a.2 acc) m := by
  induction as generalizing m with
  | nil => exact h
  | cons a as ih =>
    simp only [List.foldl_cons]
    exact ih _ (mem_insert_of_mem cmpStr _ _ _ _ h)

theorem fold_insert_all_complete (as : List (String × V)) (m : List (String × V))
    (a : String × V) (ha : a ∈ as) :
    ∃ e ∈ as.foldl (fun acc a => insert cmpStr a.1 a.2 acc) m, e.1 = a.1 := by
  induction as generalizing m with
  | nil => cases ha
  | cons b bs ih =>
    simp only [List.foldl_cons]
    rcases List.mem_cons.1 ha with h1 | h1
    · subst h1
      obtain ⟨e, he, hek⟩ := insert_has_key cmpStr a.1 a.2 m (cmpStr_self _)
      exact ⟨e, fold_insert_all_mono bs _ e he, ((cmpStr_eq_iff _ _).1 hek).symm⟩
    · exact ih _ h1

/-! ### Loops that insert into a map under a condition -/

theorem fold_insert_sound {α V : Type} (p : α → Bool) (key : α → String) (val : α → V)
    (xs : List α) (m : List (String × V)) (e : String × V)
    (h : e ∈ xs.foldl (fun m x => if p x = true then insert cmpStr (key x) (val x) m else m) m) :
    e ∈ m ∨ ∃ x ∈ xs, p x = true ∧ e = (key x, val x) := by
  induction xs generalizing m with
  | nil => exact Or.inl h
  | cons x xs ih =>
    simp only [List.foldl_cons] at h
    rcases ih _ h with h1 | ⟨y, hy, hpy, hey⟩
    · by_cases hp : p x = true
      · simp only [hp, if_true] at h1
        rcases mem_insert cmpStr _ _ _ _ h1 with h2 | h2
        · exact Or.inr ⟨x, List.mem_cons_self _ _, hp, h2⟩
        · exact Or.inl h2
      · simp only [hp] at h1
        exact Or.inl h1
    · exact Or.inr ⟨y, List.mem_cons_of_mem _ hy, hpy, hey⟩

theorem fold_insert_mono {α V : Type} (p : α → Bool) (key : α → String) (val : α → V)
    (xs : List α) (m : List (String × V)) (e : String × V) (h : e ∈ m) :
    e ∈ xs.foldl (fun m x => if p x = true then insert cmpStr (key x) (val x) m else m) m := by
  induction xs generalizing m with
  | nil => exact h
  | cons x xs ih =>
    simp only [List.foldl_cons]
    apply ih
    by_cases hp : p x = true
    · simp only [hp, if_true]
      exact mem_insert_of_mem cmpStr _ _ _ _ h
    · simp only [hp]
      exact h

theorem fold_insert_complete {α V : Type} (p : α → Bool) (key : α → String) (val : α → V)
    (xs : List α) (m : List (String × V)) (x : α) (hx : x ∈ xs) (hp : p x = true) :
    ∃ e ∈ xs.foldl (fun m x => if p x = true then insert cmpStr (key x) (val x) m else m) m,
      e.1 = key x := by
  induction xs generalizing m with
  | nil => cases hx
  | cons y ys ih =>
    simp only [List.foldl_cons]
    rcases List.mem_cons.1 hx with h1 | h1
    · subst h1
      simp only [hp, if_true]
      obtain ⟨e, he, hek⟩ := insert_has_key cmpStr (key x) (val x) m (cmpStr_self _)
      exact ⟨e, fold_insert_mono p key val ys _ e he, ((cmpStr_eq_iff _ _).1 hek).symm⟩
    · exact ih _ h1

theorem fold2_insert_sound {α β V : Type} (p : α → β → Bool) (key : α → β → String)
    (val : α → β → V) (ys : List β) (xs : List α) (m : List (String × V)) (e : String × V)
    (h : e ∈ xs.foldl (fun m x => ys.foldl
      (fun m y => if p x y = true then insert cmpStr (key x y) (val x y) m else m) m) m) :
    e ∈ m ∨ ∃ x ∈ xs, ∃ y ∈ ys, p x y = true ∧ e = (key x y, val x y) := by
  induction xs generalizing m with
  | nil => exact Or.inl h
  | cons x xs ih =>
    simp only [List.foldl_cons] at h
    rcases ih _ h with h1 | ⟨x2, hx2, y, hy, hpy, hey⟩
    · rcases fold_insert_sound (p x) (key x) (val x) ys m e h1 with h2 | ⟨y, hy, hpy, hey⟩
      · exact Or.inl h2
      · exact Or.inr ⟨x, List.mem_cons_self _ _, y, hy, hpy, hey⟩
    · exact Or.inr ⟨x2, List.mem_cons_of_mem _ hx2, y, hy, hpy, hey⟩

theorem fold2_insert_mono {α β V : Type} (p : α → β → Bool) (key : α → β → String)
    (val : α → β → V) (ys : List β) (xs : List α) (m : List (String × V)) (e : String × V)
    (h : e ∈ m) :
    e ∈ xs.foldl (fun m x => ys.foldl
      (fun m y => if p x y = true then insert cmpStr (key x y) (val x y) m else m) m) m := by
  induction xs generalizing m with
  | nil => exact h
  | cons x xs ih =>
    simp only [List.foldl_cons]
    exact ih _ (fold_insert_mono (p x) (key x) (val x) ys m e h)

theorem fold2_insert_complete {α β V : Type} (p : α → β → Bool) (key : α → β → String)
    (val : α → β → V) (ys : List β) (xs : List α) (m : List (String × V)) (x : α) (y : β)
    (hx : x ∈ xs) (hy : y ∈ ys) (hp : p x y = true) :
    ∃ e ∈ xs.foldl (fun m x => ys.foldl
      (fun m y => if p x y = true then insert cmpStr (key x y) (val x y) m else m) m) m,
      e.1 = key x y := by
  induction xs generalizing m with
  | nil => cases hx
  | cons z zs ih =>
    simp only [List.foldl_cons]
    rcases List.mem_cons.1 hx with h1 | h1
    · subst h1
      obtain ⟨e, he, hek⟩ := fold_insert_complete (p x) (key x) (val x) ys m y hy hp
      exact ⟨e, fold2_insert_mono p key val ys zs _ e he, hek⟩
    · exact ih _ h1

theorem fold_pair_split {α A B : Type} (p : α → Bool) (g : α → A → A) (h : α → B → B)
    (xs : List α) (a : A) (b : B) :
    xs.foldl (fun acc x => if p x = true then (g x acc.1, h x acc.2) else acc) (a, b)
      = (xs.foldl (fun m x => if p x = true then g x m else m) a,
         xs.foldl (fun m x => if p x = true then h x m else m) b) := by
  induction xs generalizing a b with
  | nil => rfl
  | cons x xs ih =>
    simp only [List.foldl_cons]
    by_cases hp : p x = true
    · simp only [hp, if_true]
      exact ih _ _
    · simp only [hp]
      exact ih _ _

theorem fold2_pair_split {α β A B : Type} (p : α → β → Bool) (g : α → β → A → A)
    (h : α → β → B → B) (ys : List β) (xs : List α) (a : A) (b : B) :
    xs.foldl (fun acc x => ys.foldl
        (fun acc2 y => if p x y = true then (g x y acc2.1, h x y acc2.2) else acc2) acc) (a, b)
      = (xs.foldl (fun m x => ys.foldl (fun m y => if p x y = true then g x y m else m) m) a,
         xs.foldl (fun m x => ys.foldl (fun m y => if p x y = true then h x y m else m) m) b) := by
  induction xs generalizing a b with
  | nil => rfl
  | cons x xs ih =>
    simp only [List.foldl_cons]
    rw [fold_pair_split (p x) (g x) (h x) ys a b]
    exact ih _ _

end StdMap

/-! ### The sets computed by the reconciliation -/

theorem collect_matches_fst (dds : DownloadDependencies) (deps2 : Packages) :
    (collect_matches dds deps2).1 = deps2.foldl (fun m r => dds.foldl
      (fun m c => if r.2.ppath.is_root_of c.2.ppath = true
        then StdMap.insert cmpStr c.2.ppath.str c.2.toPackage m else m) m) [] := by
  unfold collect_matches
  simp only [Function.comp, StdMap.fold2_pair_split
    (fun (r : String × Package) (c : Int × DownloadDependency) => r.2.ppath.is_root_of c.2.ppath)
    (fun _ c m => StdMap.insert cmpStr c.2.ppath.str c.2.toPackage m)
    (fun r _ m => StdMap.insert cmpStr r.2.ppath.str () m) dds deps2 [] []]

theorem collect_matches_snd (dds : DownloadDependencies) (deps2 : Packages) :
    (collect_matches dds deps2).2 = StdMap.keys (deps2.foldl (fun m r => dds.foldl
      (fun m c => if r.2.ppath.is_root_of c.2.ppath = true
        then StdMap.insert cmpStr r.2.ppath.str () m else m) m) []) := by
  unfold collect_matches
  simp only [Function.comp, StdMap.fold2_pair_split
    (fun (r : String × Package) (c : Int × DownloadDependency) => r.2.ppath.is_root_of c.2.ppath)
    (fun _ c m => StdMap.insert cmpStr c.2.ppath.str c.2.toPackage m)
    (fun r _ m => StdMap.insert cmpStr r.2.ppath.str () m) dds deps2 [] []]

theorem mem_to_add (dds : DownloadDependencies) (deps2 : Packages) (e : String × Package)
    (h : e ∈ (collect_matches dds deps2).1) :
    ∃ r ∈ deps2, ∃ c ∈ dds, r.2.ppath.is_root_of c.2.ppath = true
      ∧ e = (c.2.ppath.str, c.2.toPackage) := by
  rw [collect_matches_fst] at h
  rcases StdMap.fold2_insert_sound
    (fun (r : String × Package) (c : Int × DownloadDependency) => r.2.ppath.is_root_of c.2.ppath)
    (fun _ c => c.2.ppath.str) (fun _ c => c.2.toPackage) dds deps2 [] e h with h1 | h1
  · cases h1
  · exact h1

theorem to_add_complete (dds : DownloadDependencies) (deps2 : Packages)
    (r : String × Package) (c : Int × DownloadDependency) (hr : r ∈ deps2) (hc : c ∈ dds)
    (h : r.2.ppath.is_root_of c.2.ppath = true) :
    ∃ e ∈ (collect_matches dds deps2).1, e.1 = c.2.ppath.str := by
  rw [collect_matches_fst]
  exact StdMap.fold2_insert_complete
    (fun (r : String × Package) (c : Int × DownloadDependency) => r.2.ppath.is_root_of c.2.ppath)
    (fun _ c => c.2.ppath.str) (fun _ c => c.2.toPackage) dds deps2 [] r c hr hc h

theorem mem_to_remove (dds : DownloadDependencies) (deps2 : Packages) (k : String) :
    k ∈ (collect_matches dds deps2).2 ↔
      ∃ r ∈ deps2, ∃ c ∈ dds, r.2.ppath.is_root_of c.2.ppath = true ∧ k = r.2.ppath.str := by
  rw [collect_matches_snd]
  constructor
  · intro h
    obtain ⟨e, he, hek⟩ := List.mem_map.1 h
    rcases StdMap.fold2_insert_sound
      (fun (r : String × Package) (c : Int × DownloadDependency) =>
        r.2.ppath.is_root_of c.2.ppath)
      (fun r _ => r.2.ppath.str) (fun _ _ => ()) dds deps2 [] e he with h1 | ⟨r, hr, c, hc, hp, hx⟩
    · cases h1
    · exact ⟨r, hr, c, hc, hp, by rw [← hek, hx]⟩
  · rintro ⟨r, hr, c, hc, hp, hk⟩
    obtain ⟨e, he, hek⟩ := StdMap.fold2_insert_complete
      (fun (r : String × Package) (c : Int × DownloadDependency) =>
        r.2.ppath.is_root_of c.2.ppath)
      (fun r _ => r.2.ppath.str) (fun _ _ => ()) dds deps2 [] r c hr hc hp
    exact List.mem_map.2 ⟨e, he, by rw [hek, hk]⟩

/-! ### The root-of relation -/

theorem is_root_of_refl (a : ProjectPath) : a.is_root_of a = true := by
  simp [ProjectPath.is_root_of]

theorem is_root_of_same (a b : ProjectPath) (h : a.str = b.str) : a.is_root_of b = true := by
  simp [ProjectPath.is_root_of, h]

theorem is_root_of_trans (a b c : ProjectPath) (hab : a.is_root_of b = true)
    (hbc : b.is_root_of c = true) : a.is_root_of c = true := by
  simp only [ProjectPath.is_root_of, Bool.or_eq_true, beq_iff_eq] at hab hbc ⊢
  rcases hab with hab | hab
  · rcases hbc with hbc | hbc
    · exact Or.inl (hbc.trans hab)
    · rw [← hab]
      exact Or.inr hbc
  · rcases hbc with hbc | hbc
    · rw [hbc]
      exact Or.inr hab
    · right
      rw [ List.isPrefixOf_iff_prefix] at hab hbc ⊢
      exact hab.trans ((List.prefix_append _ _).trans hbc)

theorem ppath_eq_of_str (a b : ProjectPath) (h : a.str = b.str) : a = b := by
  cases a; cases b; simp_all

/-! ### Loops and invariants -/

theorem forIn_invariant {α σ : Type} (body : α → σ → Res σ) (I : σ → Prop) (l : List α)
    (hbody : ∀ a ∈ l, ∀ s s', I s → body a s = Res.ok s' → I s')
    (s s' : σ) (hs : I s) (h : Res.forIn body l s = Res.ok s') : I s' := by
  induction l generalizing s with
  | nil =>
    simp only [Res.forIn, Res.ok.injEq] at h
    exact h ▸ hs
  | cons a as ih =>
    simp only [Res.forIn] at h
    cases hb : body a s with
    | ok s1 =>
      rw [hb] at h
      simp only [Res.andThen] at h
      exact ih (fun x hx => hbody x (List.mem_cons_of_mem _ hx)) s1
        (hbody a (List.mem_cons_self _ _) s s1 hs hb) h
    | fail m s1 =>
      rw [hb] at h
      simp [Res.andThen] at h

theorem forIn_invariant_any {α σ : Type} (body : α → σ → Res σ) (I : σ → Prop) (l : List α)
    (hbody : ∀ a ∈ l, ∀ s, I s → I (body a s).state)
    (s : σ) (hs : I s) : I (Res.forIn body l s).state := by
  induction l generalizing s with
  | nil => exact hs
  | cons a as ih =>
    simp only [Res.forIn]
    have h1 := hbody a (List.mem_cons_self _ _) s hs
    cases hb : body a s with
    | ok s1 =>
      rw [hb] at h1
      simp only [Res.andThen]
      exact ih (fun x hx => hbody x (List.mem_cons_of_mem _ hx)) s1 h1
    | fail m s1 =>
      rw [hb] at h1
      simp only [Res.andThen]
      exact h1

theorem andThen_state {σ : Type} (I : σ → Prop) (r : Res σ) (k : σ → Res σ)
    (hr : I r.state) (hk : ∀ s, I s → I (k s).state) : I (r.andThen k).state := by
  cases r with
  | ok s => exact hk s hr
  | fail m s => exact hr

/-! ### Fields that no step of the pipeline writes -/

theorem same_control_refl (s : ResponseData) : same_control s s := ⟨rfl, rfl, rfl, rfl⟩

theorem extract_node_control (env : Env) (s0 : ResponseData) (v : String × PackageTree)
    (sw : Sys) (h : same_control s0 sw.1) : same_control s0 (extract_node env v sw).state.1 := by
  unfold extract_node
  split
  · exact h
  split
  · exact h
  split
  · exact h
  split
  · exact h
  split
  · simp only [Res.state]
    split <;> [split; skip] <;> exact h
  · simp only [Res.state]
    split <;> [split; skip] <;> exact h

theorem add_config_control (env : Env) (s0 : ResponseData) (d : DownloadDependency)
    (s : ResponseData) (c : Config) (s1 : ResponseData) (h : same_control s0 s)
    (ha : add_config env d s = Except.ok (c, s1)) : same_control s0 s1 := by
  unfold add_config at ha
  split at ha
  · cases ha
  · simp only [Except.ok.injEq, Prod.mk.injEq] at ha
    rw [← ha.2]
    exact h

theorem fetch_locked_control (env : Env) (s0 : ResponseData) (d : DownloadDependency)
    (sw : Sys) (h : same_control s0 sw.1) : same_control s0 (fetch_locked env d sw).state.1 := by
  unfold fetch_locked
  simp only
  split
  · exact h
  · split
    · exact h
    · split
      · exact h
      · split
        · exact h
        · rename_i c s2 ha
          have h2 := add_config_control env s0 d _ c s2
            (show same_control s0 { sw.1 with downloads := sw.1.downloads + 1 } from h) ha
          split
          · exact h2
          · split <;> exact h2

theorem download_and_unpack_node_control (env : Env) (s0 : ResponseData)
    (d : DownloadDependency) (sw : Sys) (h : same_control s0 sw.1) :
    same_control s0 (download_and_unpack_node env d sw).state.1 := by
  unfold download_and_unpack_node
  split
  · exact h
  · split
    · split
      · exact h
      · rename_i c s1 ha
        exact add_config_control env s0 d _ c s1 h ha
    · exact fetch_locked_control env s0 d sw h

theorem prepare_config_control (s0 s : ResponseData) (key : Package) (h : same_control s0 s) :
    same_control s0 (prepare_config s key).state := by
  unfold prepare_config
  split
  · exact h
  · split
    · exact h
    · simp only
      split <;> exact h

theorem extractDependencies_control (env : Env) (s0 : ResponseData) (sw : Sys)
    (h : same_control s0 sw.1) : same_control s0 (extractDependencies env sw).state.1 := by
  unfold extractDependencies
  split
  · exact h
  · exact forIn_invariant_any (extract_node env) (fun sw => same_control s0 sw.1) _
      (fun v _ sw1 h1 => extract_node_control env s0 v sw1 h1) sw h

theorem download_and_unpack_control (env : Env) (s0 : ResponseData) (sw : Sys)
    (h : same_control s0 sw.1) : same_control s0 (download_and_unpack env sw).state.1 := by
  unfold download_and_unpack
  exact forIn_invariant_any _ (fun sw => same_control s0 sw.1) _
    (fun (dd : Int × DownloadDependency) _ sw1 h1 =>
      download_and_unpack_node_control env s0 dd.2 sw1 h1) sw h

theorem post_download_control (s0 s : ResponseData) (h : same_control s0 s) :
    same_control s0 (post_download s).state := by
  unfold post_download
  exact forIn_invariant_any _ (fun s => same_control s0 s) _
    (fun (cc : Package × PackageConfig) _ s1 h1 => prepare_config_control s0 s1 cc.1 h1) s h

theorem run_steps_control (env : Env) (s0 : ResponseData) (sw : Sys)
    (h : same_control s0 sw.1) : same_control s0 (run_steps env sw).state.1 := by
  unfold run_steps
  refine andThen_state (fun (x : Sys) => same_control s0 x.1) _ _ ?_ ?_
  · refine andThen_state (fun (x : Sys) => same_control s0 x.1) _ _ ?_ ?_
    · refine andThen_state (fun (x : Sys) => same_control s0 x.1) _ _ ?_ ?_
      · exact extractDependencies_control env s0 sw h
      · intro sw1 h1
        exact download_and_unpack_control env s0 sw1 h1
    · intro sw1 h1
      have h2 := post_download_control s0 sw1.1 h1
      cases hp : post_download sw1.1 <;> rw [hp] at h2 <;> exact h2
  · intro sw2 h2
    exact h2

theorem process_response_control (env : Env) (s0 : ResponseData) (sw : Sys)
    (h : same_control s0 sw.1) : same_control s0 (process_response env sw).state.1 := by
  unfold process_response
  split
  · exact h
  · split
    · exact h
    · split
      · exact h
      · split
        · exact h
        · exact run_steps_control env s0 _ h

theorem resolve_and_fetch_control (env : Env) (deps : Packages) (sw : Sys) :
    same_control sw.1 (resolve_and_fetch env deps sw).state.1 := by
  unfold resolve_and_fetch
  simp only
  split
  · exact same_control_refl sw.1
  · exact process_response_control env sw.1 _ (same_control_refl sw.1)

/-! ### The guard and the tail of `download_dependencies` -/

theorem andThen_ok {σ : Type} (r : Res σ) (k : σ → Res σ) (s' : σ)
    (h : r.andThen k = Res.ok s') : ∃ s1, r = Res.ok s1 ∧ k s1 = Res.ok s' := by
  cases r with
  | ok s1 => exact ⟨s1, rfl, h⟩
  | fail m s1 => cases h

theorem root_dependencies_set (r : Packages) (s : ResponseData) :
    root_dependencies (set_root_dependencies r s) = r := by
  unfold root_dependencies set_root_dependencies
  obtain ⟨e, he, hcase⟩ := StdMap.find_modify cmpPackage Package.root PackageConfig.default
    (fun pc => { pc with dependencies := r }) s.packages (cmpPackage_self _)
  simp only [he]
  rcases hcase with h | ⟨x, _, h⟩ <;> rw [h]

theorem finish_eq (deps : Packages) (sw : Sys) :
    finish deps sw =
      match reconcile sw.1.download_dependencies_ deps with
      | Res.ok r =>
        Res.ok ({ set_root_dependencies r (set_root_dependencies deps sw.1) with
                  executed := true }, sw.2)
      | Res.fail m r =>
        Res.fail m (set_root_dependencies r (set_root_dependencies deps sw.1), sw.2) := by
  unfold finish
  simp only [root_dependencies_set]
  rfl

theorem download_dependencies_run (env : Env) (deps : Packages) (sw : Sys)
    (hex : sw.1.executed = false) (hin : sw.1.initialized = true) (hne : deps ≠ []) :
    download_dependencies env deps sw = (resolve_and_fetch env deps sw).andThen (finish deps) := by
  unfold download_dependencies
  have h1 : deps.isEmpty = false := by
    cases deps with
    | nil => exact absurd rfl hne
    | cons _ _ => rfl
  simp [hex, hin, h1]

theorem guard_returns (env : Env) (deps : Packages) (sw : Sys)
    (h : sw.1.executed = true ∨ sw.1.initialized = false ∨ deps = []) :
    download_dependencies env deps sw = Res.ok sw := by
  unfold download_dependencies
  rcases h with h | h | h
  · simp [h]
  · simp [h]
  · simp [h]

theorem resolve_and_fetch_executed (env : Env) (deps : Packages) (sw : Sys) :
    (resolve_and_fetch env deps sw).state.1.executed = sw.1.executed :=
  (resolve_and_fetch_control env deps sw).1

/-! ### Reconciliation when nothing matches -/

theorem reconcile_step_unmatched (dds : DownloadDependencies) (deps2 : Packages)
    (dd : Int × DownloadDependency) (hdd : dd ∈ dds)
    (hdir : dd.2.flags.pfDirectDependency = true)
    (hwk : ∀ e ∈ deps2, e.1 = e.2.ppath.str)
    (hno : ∀ e ∈ deps2, ∀ n ∈ dds, e.2.ppath.is_root_of n.2.ppath = false) :
    reconcile_step dds deps2 dd.2 = Res.fail "cannot match dependency" deps2 := by
  unfold reconcile_step
  have hfind : StdMap.find cmpStr dd.2.ppath.str deps2 = none := by
    rw [StdMap.find_none_iff]
    intro e he hc
    have h1 : dd.2.ppath.str = e.2.ppath.str := by
      rw [← hwk e he]
      exact (cmpStr_eq_iff _ _).1 hc
    have h2 := is_root_of_same e.2.ppath dd.2.ppath h1.symm
    rw [hno e he dd hdd] at h2
    cases h2
  have hempty : (collect_matches dds deps2).1 = [] := by
    cases hm : (collect_matches dds deps2).1 with
    | nil => rfl
    | cons x xs =>
      have hx : x ∈ (collect_matches dds deps2).1 := by
        rw [hm]
        exact List.mem_cons_self _ _
      obtain ⟨r, hr, c, hc, hp, _⟩ := mem_to_add dds deps2 x hx
      rw [hno r hr c hc] at hp
      cases hp
  simp [hdir, hfind, hempty]

theorem reconcile_unmatched_loop (dds : DownloadDependencies) (deps : Packages)
    (hwk : ∀ e ∈ deps, e.1 = e.2.ppath.str)
    (hno : ∀ e ∈ deps, ∀ n ∈ dds, e.2.ppath.is_root_of n.2.ppath = false)
    (rest : List (Int × DownloadDependency)) (hsub : ∀ n ∈ rest, n ∈ dds)
    (hdir : ∃ n ∈ rest, n.2.flags.pfDirectDependency = true) :
    Res.forIn (fun dd deps2 => reconcile_step dds deps2 dd.2) rest deps
      = Res.fail "cannot match dependency" deps := by
  induction rest with
  | nil =>
    obtain ⟨n, hn, _⟩ := hdir
    cases hn
  | cons x xs ih =>
    simp only [Res.forIn]
    by_cases hx : x.2.flags.pfDirectDependency = true
    · rw [reconcile_step_unmatched dds deps x (hsub x (List.mem_cons_self _ _)) hx hwk hno]
      rfl
    · have hskip : reconcile_step dds deps x.2 = Res.ok deps := by
        unfold reconcile_step
        simp [hx]
      rw [hskip]
      simp only [Res.andThen]
      apply ih (fun n hn => hsub n (List.mem_cons_of_mem _ hn))
      obtain ⟨n, hn, hnd⟩ := hdir
      rcases List.mem_cons.1 hn with h1 | h1
      · rw [h1] at hnd
        exact absurd hnd hx
      · exact ⟨n, h1, hnd⟩

/-- C3. When the steps before the reconciliation have completed and left a
resolved graph (the map `download_dependencies_`) that holds at least one
node with `DirectDependency` and no node whose path some requested path is
root of, `download_dependencies` on a non-empty requested set (each entry
keyed by the string of its path, as `Packages` are) fails with the message
"cannot match dependency", and `executed` is still false. -/
theorem unmatched_dependency_fails (env : Env) (deps : Packages) (sw sw5 : Sys)
    (hex : sw.1.executed = false) (hin : sw.1.initialized = true) (hne : deps ≠ [])
    (hwk : ∀ e ∈ deps, e.1 = e.2.ppath.str)
    (hfetch : resolve_and_fetch env deps sw = Res.ok sw5)
    (hdir : ∃ n ∈ sw5.1.download_dependencies_, n.2.flags.pfDirectDependency = true)
    (hno : ∀ e ∈ deps, ∀ n ∈ sw5.1.download_dependencies_,
      e.2.ppath.is_root_of n.2.ppath = false) :
    (download_dependencies env deps sw).error? = some "cannot match dependency"
      ∧ (download_dependencies env deps sw).state.1.executed = false := by
  rw [download_dependencies_run env deps sw hex hin hne, hfetch]
  simp only [Res.andThen]
  rw [finish_eq]
  unfold reconcile
  rw [reconcile_unmatched_loop sw5.1.download_dependencies_ deps hwk hno _ (fun _ h => h) hdir]
  have h5 := resolve_and_fetch_executed env deps sw
  rw [hfetch, hex] at h5
  exact ⟨rfl, h5⟩

/-- Scenario 5: the request is `org.bar`, the index resolves `org.baz` only. -/
theorem unmatched_dependency_fails_witness :
    (download_dependencies (demo_env (demo_answer [("org.baz", demo_node 1 true)]))
        [requested "org.bar" "*"] (demo_start, World.empty)).error?
        = some "cannot match dependency"
      ∧ (download_dependencies (demo_env (demo_answer [("org.baz", demo_node 1 true)]))
        [requested "org.bar" "*"] (demo_start, World.empty)).state.1.executed = false :=
  unmatched_dependency_fails (demo_env (demo_answer [("org.baz", demo_node 1 true)]))
    [requested "org.bar" "*"] (demo_start, World.empty)
    (resolve_and_fetch (demo_env (demo_answer [("org.baz", demo_node 1 true)]))
      [requested "org.bar" "*"] (demo_start, World.empty)).state
    (by decide) (by decide) (by decide) (by decide) (by decide) (by decide) (by decide)

/-- C10. A call of `download_dependencies` on an orchestrator that has
executed, or that is not initialised, or with an empty requested set, returns
normally and leaves every field of the orchestrator and the whole world,
the log of network requests included, as they were. -/
theorem download_dependencies_guard (env : Env) (deps : Packages) (sw : Sys)
    (h : sw.1.executed = true ∨ sw.1.initialized = false ∨ deps = []) :
    download_dependencies env deps sw = Res.ok sw := by
  unfold download_dependencies
  rcases h with hexecuted | hfresh | hempty
  · rw [hexecuted]
    rfl
  · rw [hfresh]
    simp
  · rw [hempty]
    simp

/-- An initialised orchestrator called with an empty requested set. -/
theorem download_dependencies_guard_witness :
    download_dependencies (demo_env (demo_answer [("org.foo", demo_node 1 true)])) []
      (demo_start, World.empty) = Res.ok (demo_start, World.empty) :=
  download_dependencies_guard _ [] (demo_start, World.empty) (Or.inr (Or.inr rfl))

/-! ### Failures -/

/-- C7, as stated, fails: the index answers with an error, the call fails,
and the request tree and the response tree of the orchestrator are no longer
what they were before the call. -/
theorem failure_changes_state :
    (download_dependencies (demo_env refusal) [requested "org.foo" "*"]
        (demo_start, World.empty)).error? = some "package not found"
      ∧ demo_start.request = []
      ∧ (download_dependencies (demo_env refusal) [requested "org.foo" "*"]
        (demo_start, World.empty)).state.1.request = [("org.foo", "*")]
      ∧ (download_dependencies (demo_env refusal) [requested "org.foo" "*"]
        (demo_start, World.empty)).state.1.dependency_tree ≠ demo_start.dependency_tree
      ∧ (download_dependencies (demo_env refusal) [requested "org.foo" "*"]
        (demo_start, World.empty)).state.1 ≠ demo_start := by
  decide

/-- C7, amended. After every call of `download_dependencies` that fails,
`executed` is false, `initialized` is true and `host` and `root_dir` are what
they were, so that a later call passes the guard and runs the pipeline again;
nothing is said of the other fields, which the failed call may have written. -/
theorem failure_keeps_control (env : Env) (deps : Packages) (sw : Sys)
    (h : (download_dependencies env deps sw).isOk = false) :
    (download_dependencies env deps sw).state.1.executed = false
      ∧ (download_dependencies env deps sw).state.1.initialized = true
      ∧ (download_dependencies env deps sw).state.1.host = sw.1.host
      ∧ (download_dependencies env deps sw).state.1.root_dir = sw.1.root_dir := by
  by_cases hg : sw.1.executed = true ∨ sw.1.initialized = false ∨ deps = []
  · rw [guard_returns env deps sw hg] at h
    cases h
  · have hex : sw.1.executed = false := by
      cases hb : sw.1.executed
      · rfl
      · exact absurd (Or.inl hb) hg
    have hin : sw.1.initialized = true := by
      cases hb : sw.1.initialized
      · exact absurd (Or.inr (Or.inl hb)) hg
      · rfl
    have hne : deps ≠ [] := fun hd => hg (Or.inr (Or.inr hd))
    rw [download_dependencies_run env deps sw hex hin hne] at h ⊢
    have hc := resolve_and_fetch_control env deps sw
    cases hr : resolve_and_fetch env deps sw with
    | fail m s =>
      rw [hr] at hc
      obtain ⟨h1, h2, h3, h4⟩ := hc
      exact ⟨h1.trans hex, h2.trans hin, h3, h4⟩
    | ok sw5 =>
      rw [hr] at hc h
      obtain ⟨h1, h2, h3, h4⟩ := hc
      simp only [Res.andThen] at h ⊢
      rw [finish_eq] at h ⊢
      cases hrec : reconcile sw5.1.download_dependencies_ deps with
      | ok r =>
        rw [hrec] at h
        cases h
      | fail m r => exact ⟨h1.trans hex, h2.trans hin, h3, h4⟩

/-- The call on the request `org.foo` that the index refuses. -/
theorem failure_keeps_control_witness :
    (download_dependencies (demo_env refusal) [requested "org.foo" "*"]
        (demo_start, World.empty)).state.1.executed = false
      ∧ (download_dependencies (demo_env refusal) [requested "org.foo" "*"]
        (demo_start, World.empty)).state.1.initialized = true
      ∧ (download_dependencies (demo_env refusal) [requested "org.foo" "*"]
        (demo_start, World.empty)).state.1.host = demo_start.host
      ∧ (download_dependencies (demo_env refusal) [requested "org.foo" "*"]
        (demo_start, World.empty)).state.1.root_dir = demo_start.root_dir :=
  failure_keeps_control (demo_env refusal) [requested "org.foo" "*"] (demo_start, World.empty)
    (by decide)

/-- When the answer holds an `error` key and its `api` field is missing or is
an integer, the validation fails with the value of `error`, before any
extraction or download: the state is the one in which the answer arrived. -/
theorem error_key_wins (env : Env) (sw : Sys) (e : String)
    (herr : sw.1.dependency_tree.error = some e)
    (hapi : sw.1.dependency_tree.api ≠ IntField.notInt) :
    process_response env sw = Res.fail e sw := by
  unfold process_response
  cases ha : sw.1.dependency_tree.api with
  | notInt => exact absurd ha hapi
  | absent => simp [read_api, herr]
  | int n => simp [read_api, herr]

/-- C6 at the failing input: the answer holds the `error` key with the value
"package not found" and an `api` field that is not a number; the call fails
with the message of the conversion of `api`, not with the value of `error`. -/
theorem error_key_lost_behind_api :
    (download_dependencies (demo_env garbled_refusal) [requested "org.foo" "*"]
        (demo_start, World.empty)).error? = some "conversion of data to type int failed"
      ∧ garbled_refusal.error = some "package not found" := by
  decide

/-! ### What a successful call leaves -/

theorem download_dependencies_ok (env : Env) (deps : Packages) (sw sw' : Sys)
    (hex : sw.1.executed = false) (hin : sw.1.initialized = true) (hne : deps ≠ [])
    (h : download_dependencies env deps sw = Res.ok sw') :
    ∃ sw5, resolve_and_fetch env deps sw = Res.ok sw5
      ∧ reconcile sw5.1.download_dependencies_ deps = Res.ok (root_dependencies sw'.1)
      ∧ sw'.1.download_dependencies_ = sw5.1.download_dependencies_ := by
  rw [download_dependencies_run env deps sw hex hin hne] at h
  obtain ⟨sw5, h5, hfin⟩ := andThen_ok _ _ _ h
  refine ⟨sw5, h5, ?_⟩
  rw [finish_eq] at hfin
  cases hrec : reconcile sw5.1.download_dependencies_ deps with
  | fail m r =>
    rw [hrec] at hfin
    cases hfin
  | ok r =>
    rw [hrec] at hfin
    simp only [Res.ok.injEq] at hfin
    rw [← hfin]
    constructor
    · exact congrArg Res.ok
        (root_dependencies_set r (set_root_dependencies deps sw5.1)).symm
    · rfl

/-! ### Reconciliation keeps a tidy map tidy -/

theorem reconcile_step_tidy (dds : DownloadDependencies) (deps2 deps3 : Packages)
    (dd : DownloadDependency)
    (hG : ∀ a ∈ dds, ∀ b ∈ dds, a.2.ppath.is_root_of b.2.ppath = true → a.2.ppath = b.2.ppath)
    (hR : Tidy deps2) (h : reconcile_step dds deps2 dd = Res.ok deps3) : Tidy deps3 := by
  unfold reconcile_step at h
  by_cases hd : dd.flags.pfDirectDependency = true
  · simp only [hd, Bool.not_true, Bool.false_eq_true, if_false] at h
    cases hf : StdMap.find cmpStr dd.ppath.str deps2 with
    | some x =>
      rw [hf] at h
      simp only [Res.ok.injEq] at h
      have hback : ∀ e ∈ deps3, ∃ x ∈ deps2, e.1 = x.1 ∧ e.2.ppath = x.2.ppath := by
        intro e he
        rw [← h] at he
        obtain ⟨x, hx, hx1, hx2⟩ := StdMap.mem_update _ _ _ _ e he
        refine ⟨x, hx, hx1, ?_⟩
        rcases hx2 with h2 | h2 <;> rw [h2]
        rfl
      constructor
      · intro e he
        obtain ⟨x, hx, hx1, hx2⟩ := hback e he
        rw [hx1, hx2]
        exact hR.1 x hx
      · intro a ha b hb hab
        obtain ⟨x, hx, _, hx2⟩ := hback a ha
        obtain ⟨y, hy, _, hy2⟩ := hback b hb
        rw [hx2, hy2] at hab ⊢
        exact hR.2 x hx y hy hab
    | none =>
      rw [hf] at h
      simp only at h
      by_cases hem : (collect_matches dds deps2).1.isEmpty = true
      · simp [hem] at h
      · simp only [hem, Bool.false_eq_true, if_false, Res.ok.injEq] at h
        have hcase : ∀ e ∈ deps3,
            (∃ r ∈ deps2, ∃ c ∈ dds, r.2.ppath.is_root_of c.2.ppath = true
              ∧ e = (c.2.ppath.str, c.2.toPackage))
            ∨ (e ∈ deps2 ∧ ∀ c ∈ dds, e.2.ppath.is_root_of c.2.ppath = false) := by
          intro e he
          rw [← h] at he
          rcases StdMap.fold_insert_all_sound _ _ e he with h1 | h1
          · exact Or.inl (mem_to_add dds deps2 e h1)
          · rw [StdMap.fold_erase_mem] at h1
            refine Or.inr ⟨h1.1, ?_⟩
            intro c hc
            cases hrc : e.2.ppath.is_root_of c.2.ppath with
            | false => rfl
            | true =>
              exfalso
              apply h1.2
              rw [mem_to_remove]
              exact ⟨e, h1.1, c, hc, hrc, hR.1 e h1.1⟩
        constructor
        · intro e he
          rcases hcase e he with ⟨r, _, c, _, _, hec⟩ | ⟨h1, _⟩
          · rw [hec]
          · exact hR.1 e h1
        · intro a ha b hb hab
          rcases hcase a ha with ⟨r, hr, c, hc, hrc, hac⟩ | ⟨ha1, ha2⟩
          · rcases hcase b hb with ⟨r2, _, c2, hc2, _, hbc⟩ | ⟨hb1, hb2⟩
            · rw [hac, hbc] at hab ⊢
              exact hG c hc c2 hc2 hab
            · exfalso
              rw [hac] at hab
              have h1 : r.2.ppath.is_root_of b.2.ppath = true :=
                is_root_of_trans _ _ _ hrc hab
              have h2 : r.2.ppath = b.2.ppath := hR.2 r hr b hb1 h1
              rw [h2, hb2 c hc] at hrc
              cases hrc
          · rcases hcase b hb with ⟨r2, _, c2, hc2, _, hbc⟩ | ⟨hb1, _⟩
            · exfalso
              rw [hbc] at hab
              rw [ha2 c2 hc2] at hab
              cases hab
            · exact hR.2 a ha1 b hb1 hab
  · simp only [hd, Bool.not_false, if_true, Res.ok.injEq] at h
    rw [← h]
    exact hR

theorem reconcile_tidy (dds : DownloadDependencies) (deps deps3 : Packages)
    (hG : ∀ a ∈ dds, ∀ b ∈ dds, a.2.ppath.is_root_of b.2.ppath = true → a.2.ppath = b.2.ppath)
    (hR : Tidy deps) (h : reconcile dds deps = Res.ok deps3) : Tidy deps3 := by
  unfold reconcile at h
  exact forIn_invariant _ Tidy dds
    (fun dd _ s s' hs hb => reconcile_step_tidy dds s s' dd.2 hG hs hb) deps deps3 hR h

theorem run_steps_ok (env : Env) (sw sw5 : Sys) (h : run_steps env sw = Res.ok sw5) :
    ∃ sw3 sw4 s5, extractDependencies env sw = Res.ok sw3
      ∧ download_and_unpack env sw3 = Res.ok sw4
      ∧ post_download sw4.1 = Res.ok s5
      ∧ sw5 = (s5, write_index env s5 sw4.2) := by
  unfold run_steps at h
  obtain ⟨x3, h3, hw⟩ := andThen_ok _ _ _ h
  obtain ⟨x2, h2, hp⟩ := andThen_ok _ _ _ h3
  obtain ⟨x1, h1, hd⟩ := andThen_ok _ _ _ h2
  refine ⟨x1, x2, x3.1, h1, hd, ?_, ?_⟩
  · cases hpd : post_download x2.1 with
    | ok s =>
      rw [hpd] at hp
      simp only [Res.ok.injEq] at hp
      rw [← hp]
    | fail m s =>
      rw [hpd] at hp
      cases hp
  · simp only [Res.ok.injEq] at hw
    rw [← hw]
    cases hpd : post_download x2.1 with
    | ok s =>
      rw [hpd] at hp
      simp only [Res.ok.injEq] at hp
      rw [← hp]
    | fail m s =>
      rw [hpd] at hp
      cases hp

theorem resolve_and_fetch_ok (env : Env) (deps : Packages) (sw sw5 : Sys)
    (h : resolve_and_fetch env deps sw = Res.ok sw5) :
    ∃ sw2, run_steps env sw2 = Res.ok sw5 ∧ sw2.1.packages = sw.1.packages
      ∧ sw2.1.dependency_tree.error = none := by
  unfold resolve_and_fetch at h
  simp only at h
  split at h
  · cases h
  · rename_i tree _
    unfold process_response at h
    split at h
    · cases h
    · split at h
      · cases h
      · rename_i herr
        split at h
        · cases h
        · split at h
          · cases h
          · exact ⟨_, h, rfl, herr⟩

/-! ### The resolved graph is not empty after `post_download` -/

theorem extract_node_packages_ne (env : Env) (v : String × PackageTree) (sw : Sys)
    (h : sw.1.packages ≠ []) : (extract_node env v sw).state.1.packages ≠ [] := by
  unfold extract_node
  split
  · exact h
  split
  · exact h
  split
  · exact h
  split
  · exact h
  split
  · simp only [Res.state]
    split <;> [split; skip] <;>
      first | exact h | (dsimp only; exact StdMap.modify_ne_nil _ _ _ _ _)
  · simp only [Res.state]
    split <;> [split; skip] <;>
      first | exact h | (dsimp only; exact StdMap.modify_ne_nil _ _ _ _ _)

theorem add_config_packages_ne (env : Env) (d : DownloadDependency) (s : ResponseData)
    (c : Config) (s1 : ResponseData) (ha : add_config env d s = Except.ok (c, s1)) :
    s1.packages ≠ [] := by
  unfold add_config at ha
  split at ha
  · cases ha
  · simp only [Except.ok.injEq, Prod.mk.injEq] at ha
    rw [← ha.2]
    dsimp only
    exact StdMap.modify_ne_nil _ _ _ _ _

theorem fetch_locked_packages_ne (env : Env) (d : DownloadDependency) (sw : Sys)
    (h : sw.1.packages ≠ []) : (fetch_locked env d sw).state.1.packages ≠ [] := by
  unfold fetch_locked
  simp only
  split
  · exact h
  · split
    · exact h
    · split
      · exact h
      · split
        · exact h
        · rename_i c s2 ha
          have h2 := add_config_packages_ne env d _ c s2 ha
          split
          · exact h2
          · split <;> exact h2

theorem download_and_unpack_node_packages_ne (env : Env) (d : DownloadDependency) (sw : Sys)
    (h : sw.1.packages ≠ []) : (download_and_unpack_node env d sw).state.1.packages ≠ [] := by
  unfold download_and_unpack_node
  split
  · exact h
  · split
    · split
      · exact h
      · rename_i c s1 ha
        exact add_config_packages_ne env d _ c s1 ha
    · exact fetch_locked_packages_ne env d sw h

theorem prepare_config_found (s s' : ResponseData) (key : Package)
    (hf : (StdMap.find cmpPackage key s.packages).isSome = true)
    (h : prepare_config s key = Res.ok s') : s'.download_dependencies_ ≠ [] := by
  unfold prepare_config at h
  split at h
  · rename_i hnone
    rw [hnone] at hf
    cases hf
  · split at h
    · cases h
    · simp only at h
      split at h
      · simp only [Res.ok.injEq] at h
        rw [← h]
        exact StdMap.modify_ne_nil _ _ _ _ _
      · cases h

theorem prepare_config_graph_ne (s s' : ResponseData) (key : Package)
    (hne : s.download_dependencies_ ≠ []) (h : prepare_config s key = Res.ok s') :
    s'.download_dependencies_ ≠ [] := by
  unfold prepare_config at h
  split at h
  · simp only [Res.ok.injEq] at h
    rw [← h]
    exact hne
  · split at h
    · cases h
    · simp only at h
      split at h
      · simp only [Res.ok.injEq] at h
        rw [← h]
        exact StdMap.modify_ne_nil _ _ _ _ _
      · cases h

theorem post_download_graph_ne (s s' : ResponseData) (hne : s.packages ≠ [])
    (h : post_download s = Res.ok s') : s'.download_dependencies_ ≠ [] := by
  unfold post_download at h
  cases hp : s.packages with
  | nil => exact absurd hp hne
  | cons cc rest =>
    rw [hp] at h
    simp only [Res.forIn] at h
    obtain ⟨s1, h1, h2⟩ := andThen_ok _ _ _ h
    have hfound : (StdMap.find cmpPackage cc.1 s.packages).isSome = true := by
      rw [StdMap.find_isSome_iff]
      exact ⟨cc, by rw [hp]; exact List.mem_cons_self _ _, cmpPackage_self _⟩
    have hs1 := prepare_config_found s s1 cc.1 hfound h1
    exact forIn_invariant _ (fun (x : ResponseData) => x.download_dependencies_ ≠ []) rest
      (fun a _ x x' hx hb => prepare_config_graph_ne x x' a.1 hx hb) s1 s' hs1 h2

theorem resolve_and_fetch_graph_ne (env : Env) (deps : Packages) (sw sw5 : Sys)
    (hne : sw.1.packages ≠ []) (h : resolve_and_fetch env deps sw = Res.ok sw5) :
    sw5.1.download_dependencies_ ≠ [] := by
  obtain ⟨sw2, hrun, hpk, _⟩ := resolve_and_fetch_ok env deps sw sw5 h
  obtain ⟨sw3, sw4, s5, h3, h4, h5, h6⟩ := run_steps_ok env sw2 sw5 hrun
  have hne2 : sw2.1.packages ≠ [] := by rw [hpk]; exact hne
  have hne3 : sw3.1.packages ≠ [] := by
    have : (extractDependencies env sw2).state.1.packages ≠ [] := by
      unfold extractDependencies
      split
      · exact hne2
      · exact forIn_invariant_any (extract_node env) (fun (x : Sys) => x.1.packages ≠ []) _
          (fun v _ x hx => extract_node_packages_ne env v x hx) sw2 hne2
    rw [h3] at this
    exact this
  have hne4 : sw4.1.packages ≠ [] := by
    have : (download_and_unpack env sw3).state.1.packages ≠ [] := by
      unfold download_and_unpack
      exact forIn_invariant_any _ (fun (x : Sys) => x.1.packages ≠ []) _
        (fun (dd : Int × DownloadDependency) _ x hx =>
          download_and_unpack_node_packages_ne env dd.2 x hx) sw3 hne3
    rw [h4] at this
    exact this
  rw [h6]
  exact post_download_graph_ne sw4.1 s5 hne4 h5

/-! ### Reconciliation of a single requested package that is root of the
direct dependencies resolved -/

theorem reconcile_step_covered (dds : DownloadDependencies) (deps2 deps3 : Packages)
    (dd : Int × DownloadDependency) (hdd : dd ∈ dds)
    (hgood : ∀ k, k ∈ StdMap.keys deps2 ↔
      ∃ n ∈ dds, n.2.flags.pfDirectDependency = true ∧ n.2.ppath.str = k)
    (h : reconcile_step dds deps2 dd.2 = Res.ok deps3) :
    ∀ k, k ∈ StdMap.keys deps3 ↔
      ∃ n ∈ dds, n.2.flags.pfDirectDependency = true ∧ n.2.ppath.str = k := by
  unfold reconcile_step at h
  by_cases hd : dd.2.flags.pfDirectDependency = true
  · simp only [hd, Bool.not_true, Bool.false_eq_true, if_false] at h
    have hsome : (StdMap.find cmpStr dd.2.ppath.str deps2).isSome = true := by
      rw [StdMap.find_isSome_iff]
      obtain ⟨e, he, hek⟩ := List.mem_map.1 ((hgood dd.2.ppath.str).2 ⟨dd, hdd, hd, rfl⟩)
      exact ⟨e, he, (cmpStr_eq_iff _ _).2 hek.symm⟩
    cases hf : StdMap.find cmpStr dd.2.ppath.str deps2 with
    | none =>
      rw [hf] at hsome
      cases hsome
    | some x =>
      rw [hf] at h
      simp only [Res.ok.injEq] at h
      intro k
      rw [← hgood k, ← h]
      unfold StdMap.keys
      rw [StdMap.update_keys]
  · simp only [hd, Bool.not_false, if_true, Res.ok.injEq] at h
    rw [← h]
    exact hgood

theorem reconcile_step_first (dds : DownloadDependencies) (r : Package) (deps3 : Packages)
    (dd : Int × DownloadDependency) (hdd : dd ∈ dds)
    (hdir : dd.2.flags.pfDirectDependency = true)
    (h1 : ∀ n ∈ dds, n.2.flags.pfDirectDependency = true →
      n.2.ppath ≠ r.ppath ∧ r.ppath.is_root_of n.2.ppath = true)
    (h2 : ∀ n ∈ dds, n.2.flags.pfDirectDependency = false →
      r.ppath.is_root_of n.2.ppath = false)
    (h : reconcile_step dds [(r.ppath.str, r)] dd.2 = Res.ok deps3) :
    ∀ k, k ∈ StdMap.keys deps3 ↔
      ∃ n ∈ dds, n.2.flags.pfDirectDependency = true ∧ n.2.ppath.str = k := by
  unfold reconcile_step at h
  simp only [hdir, Bool.not_true, Bool.false_eq_true, if_false] at h
  have hfind : StdMap.find cmpStr dd.2.ppath.str [(r.ppath.str, r)] = none := by
    rw [StdMap.find_none_iff]
    intro e he hc
    rw [List.mem_singleton] at he
    rw [he] at hc
    exact (h1 dd hdd hdir).1 (ppath_eq_of_str _ _ ((cmpStr_eq_iff _ _).1 hc))
  rw [hfind] at h
  simp only at h
  by_cases hem : (collect_matches dds [(r.ppath.str, r)]).1.isEmpty = true
  · simp [hem] at h
  · simp only [hem, Bool.false_eq_true, if_false, Res.ok.injEq] at h
    intro k
    constructor
    · intro hk
      obtain ⟨e, he, hek⟩ := List.mem_map.1 hk
      rw [← h] at he
      rcases StdMap.fold_insert_all_sound _ _ e he with ha | ha
      · obtain ⟨r0, hr0, c, hc, hrc, hec⟩ := mem_to_add _ _ e ha
        rw [List.mem_singleton] at hr0
        rw [hr0] at hrc
        refine ⟨c, hc, ?_, ?_⟩
        · cases hcd : c.2.flags.pfDirectDependency with
          | true => rfl
          | false =>
            rw [h2 c hc hcd] at hrc
            cases hrc
        · rw [← hek, hec]
      · exfalso
        rw [StdMap.fold_erase_mem] at ha
        apply ha.2
        rw [mem_to_remove]
        have he2 := ha.1
        rw [List.mem_singleton] at he2
        refine ⟨(r.ppath.str, r), List.mem_singleton.2 rfl, dd, hdd, (h1 dd hdd hdir).2, ?_⟩
        rw [he2]
    · rintro ⟨n, hn, hnd, hnk⟩
      obtain ⟨e, he, hek⟩ := to_add_complete dds [(r.ppath.str, r)] (r.ppath.str, r) n
        (List.mem_singleton.2 rfl) hn (h1 n hn hnd).2
      obtain ⟨e2, he2, he2k⟩ := StdMap.fold_insert_all_complete
        (collect_matches dds [(r.ppath.str, r)]).1
        ((collect_matches dds [(r.ppath.str, r)]).2.foldl
          (fun acc r => StdMap.erase cmpStr r acc) [(r.ppath.str, r)]) e he
      rw [← h]
      exact List.mem_map.2 ⟨e2, he2, by rw [he2k, hek, hnk]⟩

theorem reconcile_single_loop (dds : DownloadDependencies) (r : Package)
    (h1 : ∀ n ∈ dds, n.2.flags.pfDirectDependency = true →
      n.2.ppath ≠ r.ppath ∧ r.ppath.is_root_of n.2.ppath = true)
    (h2 : ∀ n ∈ dds, n.2.flags.pfDirectDependency = false →
      r.ppath.is_root_of n.2.ppath = false)
    (rest : List (Int × DownloadDependency)) (hsub : ∀ n ∈ rest, n ∈ dds)
    (hdir : ∃ n ∈ rest, n.2.flags.pfDirectDependency = true) (deps3 : Packages)
    (h : Res.forIn (fun dd deps2 => reconcile_step dds deps2 dd.2) rest [(r.ppath.str, r)]
      = Res.ok deps3) :
    ∀ k, k ∈ StdMap.keys deps3 ↔
      ∃ n ∈ dds, n.2.flags.pfDirectDependency = true ∧ n.2.ppath.str = k := by
  induction rest with
  | nil =>
    obtain ⟨n, hn, _⟩ := hdir
    cases hn
  | cons x xs ih =>
    simp only [Res.forIn] at h
    obtain ⟨s1, hs1, hrest⟩ := andThen_ok _ _ _ h
    by_cases hx : x.2.flags.pfDirectDependency = true
    · have hgood := reconcile_step_first dds r s1 x (hsub x (List.mem_cons_self _ _)) hx
        h1 h2 hs1
      exact forIn_invariant _
        (fun (m : Packages) => ∀ k, k ∈ StdMap.keys m ↔
          ∃ n ∈ dds, n.2.flags.pfDirectDependency = true ∧ n.2.ppath.str = k) xs
        (fun a ha m m' hm hb =>
          reconcile_step_covered dds m m' a (hsub a (List.mem_cons_of_mem _ ha)) hm hb)
        s1 deps3 hgood hrest
    · have hskip : reconcile_step dds [(r.ppath.str, r)] x.2 = Res.ok [(r.ppath.str, r)] := by
        unfold reconcile_step
        simp [hx]
      rw [hskip] at hs1
      simp only [Res.ok.injEq] at hs1
      rw [← hs1] at hrest
      apply ih (fun n hn => hsub n (List.mem_cons_of_mem _ hn)) _ hrest
      obtain ⟨n, hn, hnd⟩ := hdir
      rcases List.mem_cons.1 hn with h3 | h3
      · rw [h3] at hnd
        exact absurd hnd hx
      · exact ⟨n, h3, hnd⟩

/-- The case in which the map `download_dependencies_` holds nothing but
nodes with `DirectDependency` (the index numbers one of its nodes 0, so that
`prepare_config` creates no node for the root package): an initialised
orchestrator that holds the entry of the root package runs
`download_dependencies` on the single requested package `r`, and every node
has a path that differs from the path of `r` and that the path of `r` is root
of. The entry of the root package makes the map non-empty. -/
theorem root_subsumption_all_direct (env : Env) (r : Package) (sw sw' : Sys)
    (hex : sw.1.executed = false) (hin : sw.1.initialized = true)
    (hroot : (StdMap.find cmpPackage Package.root sw.1.packages).isSome = true)
    (hrun : download_dependencies env [(r.ppath.str, r)] sw = Res.ok sw')
    (hall : ∀ n ∈ sw'.1.download_dependencies_, n.2.flags.pfDirectDependency = true
      ∧ n.2.ppath ≠ r.ppath ∧ r.ppath.is_root_of n.2.ppath = true) :
    (∀ k, k ∈ StdMap.keys (root_dependencies sw'.1) ↔
        ∃ n ∈ sw'.1.download_dependencies_, n.2.ppath.str = k)
      ∧ r.ppath.str ∉ StdMap.keys (root_dependencies sw'.1) := by
  obtain ⟨sw5, hfetch, hrec, hdds⟩ := download_dependencies_ok env _ sw sw' hex hin
    (List.cons_ne_nil _ _) hrun
  have hpk : sw.1.packages ≠ [] := by
    intro hnil
    rw [hnil] at hroot
    cases hroot
  have hne := resolve_and_fetch_graph_ne env _ sw sw5 hpk hfetch
  rw [← hdds] at hne hrec
  have hdir : ∃ n ∈ sw'.1.download_dependencies_, n.2.flags.pfDirectDependency = true := by
    cases hg : sw'.1.download_dependencies_ with
    | nil => exact absurd hg hne
    | cons x xs =>
      exact ⟨x, List.mem_cons_self _ _, (hall x (by rw [hg]; exact List.mem_cons_self _ _)).1⟩
  have hkeys := reconcile_single_loop sw'.1.download_dependencies_ r
    (fun n hn _ => (hall n hn).2)
    (fun n hn hnd => by rw [(hall n hn).1] at hnd; cases hnd)
    sw'.1.download_dependencies_ (fun _ hn => hn) hdir _ hrec
  constructor
  · intro k
    rw [hkeys k]
    constructor
    · rintro ⟨n, hn, _, hk⟩
      exact ⟨n, hn, hk⟩
    · rintro ⟨n, hn, hk⟩
      exact ⟨n, hn, (hall n hn).1, hk⟩
  · intro hmem
    obtain ⟨n, hn, _, hk⟩ := (hkeys _).1 hmem
    exact (hall n hn).2.1 (ppath_eq_of_str _ _ hk)

/-- Scenario 4, the request `org.foo` resolved into `org.foo.a`, `org.foo.b`
and `org.foo.c`, with the nodes numbered from 0: the map
`download_dependencies_` then holds these three nodes and nothing else. -/
theorem root_subsumption_all_direct_scenario :
    (∀ k, k ∈ StdMap.keys (root_dependencies (download_dependencies
          (demo_env answer_abc_from_zero) [requested "org.foo" "*"]
          (demo_start, World.empty)).state.1) ↔
        ∃ n ∈ (download_dependencies (demo_env answer_abc_from_zero)
          [requested "org.foo" "*"] (demo_start, World.empty)).state.1.download_dependencies_,
          n.2.ppath.str = k)
      ∧ "org.foo" ∉ StdMap.keys (root_dependencies (download_dependencies
          (demo_env answer_abc_from_zero) [requested "org.foo" "*"]
          (demo_start, World.empty)).state.1) :=
  root_subsumption_all_direct (demo_env answer_abc_from_zero) (requested "org.foo" "*").2
    (demo_start, World.empty)
    (download_dependencies (demo_env answer_abc_from_zero) [requested "org.foo" "*"]
      (demo_start, World.empty)).state
    (by decide) (by decide) (by decide) (by decide) (by decide)

/-- Scenario 4 with the nodes numbered from 1, evaluated: the root
dependencies end as `org.foo.a`, `org.foo.b`, `org.foo.c`; the map
`download_dependencies_` holds, besides the three nodes, the node that
`prepare_config` creates under the id 0 for the root package, which is not a
direct dependency and which `org.foo` is not root of. -/
theorem scenario_root_subsumption :
    (download_dependencies (demo_env answer_abc) [requested "org.foo" "*"]
        (demo_start, World.empty)).isOk = true
      ∧ StdMap.keys (root_dependencies (download_dependencies (demo_env answer_abc)
          [requested "org.foo" "*"] (demo_start, World.empty)).state.1)
        = ["org.foo.a", "org.foo.b", "org.foo.c"]
      ∧ (download_dependencies (demo_env answer_abc) [requested "org.foo" "*"]
          (demo_start, World.empty)).state.1.download_dependencies_.map
            (fun n => (n.1, n.2.ppath.str, n.2.flags.pfDirectDependency))
        = [(0, "", false), (1, "org.foo.a", true), (2, "org.foo.b", true),
            (3, "org.foo.c", true)] := by
  decide

/-- C2, as stated, fails: the request is the single package `org.foo` and the
index answers with an empty `packages` table. No node is resolved (the map is
empty after `extractDependencies`, and at the reconciliation it holds only the
node that `prepare_config` creates under the id 0 for the root package, which
has no `DirectDependency`), so every condition of the claim on the nodes holds;
the call returns normally and `packages[root].dependencies` still has the key
`org.foo`, which is the path of no resolved node. -/
theorem empty_answer_keeps_request :
    answer_empty.packages = some []
      ∧ (extractDependencies (demo_env answer_empty)
          ({ demo_start with dependency_tree := answer_empty },
            World.empty)).state.1.download_dependencies_ = []
      ∧ (download_dependencies (demo_env answer_empty) [requested "org.foo" "*"]
          (demo_start, World.empty)).isOk = true
      ∧ (download_dependencies (demo_env answer_empty) [requested "org.foo" "*"]
          (demo_start, World.empty)).state.1.executed = true
      ∧ (download_dependencies (demo_env answer_empty) [requested "org.foo" "*"]
          (demo_start, World.empty)).state.1.download_dependencies_.map
            (fun n => (n.1, n.2.ppath.str, n.2.flags.pfDirectDependency))
        = [(0, "", false)]
      ∧ StdMap.keys (root_dependencies (download_dependencies (demo_env answer_empty)
          [requested "org.foo" "*"] (demo_start, World.empty)).state.1)
        = ["org.foo"] := by
  decide

/-- C2, amended. Let an initialised orchestrator run `download_dependencies` on
the requested set that consists of the single package `r`, and let the call
return normally. Let the resolved graph, the map `download_dependencies_` as
the reconciliation iterates it, hold at least one node with `DirectDependency`;
let every node with `DirectDependency` have a path that differs from the path
of `r` and that the path of `r` is root of; and let the path of `r` be root of
no node without `DirectDependency` (such a node is the one that
`prepare_config` creates under the id 0 for the root package). Then the keys of
`packages[root].dependencies` are exactly the paths of the nodes with
`DirectDependency`, and the path of `r` is not among them. (That the paths of
the nodes are pairwise distinct is not needed for this.) -/
theorem root_subsumption (env : Env) (r : Package) (sw sw' : Sys)
    (hex : sw.1.executed = false) (hin : sw.1.initialized = true)
    (hrun : download_dependencies env [(r.ppath.str, r)] sw = Res.ok sw')
    (h1 : ∀ n ∈ sw'.1.download_dependencies_, n.2.flags.pfDirectDependency = true →
      n.2.ppath ≠ r.ppath ∧ r.ppath.is_root_of n.2.ppath = true)
    (h2 : ∀ n ∈ sw'.1.download_dependencies_, n.2.flags.pfDirectDependency = false →
      r.ppath.is_root_of n.2.ppath = false)
    (hdir : ∃ n ∈ sw'.1.download_dependencies_, n.2.flags.pfDirectDependency = true) :
    (∀ k, k ∈ StdMap.keys (root_dependencies sw'.1) ↔
        ∃ n ∈ sw'.1.download_dependencies_,
          n.2.flags.pfDirectDependency = true ∧ n.2.ppath.str = k)
      ∧ r.ppath.str ∉ StdMap.keys (root_dependencies sw'.1) := by
  obtain ⟨sw5, _, hrec, hdds⟩ := download_dependencies_ok env _ sw sw' hex hin
    (List.cons_ne_nil _ _) hrun
  rw [← hdds] at hrec
  have hkeys := reconcile_single_loop sw'.1.download_dependencies_ r h1 h2
    sw'.1.download_dependencies_ (fun _ hn => hn) hdir _ hrec
  refine ⟨hkeys, ?_⟩
  intro hmem
  obtain ⟨n, hn, hnd, hk⟩ := (hkeys _).1 hmem
  exact (h1 n hn hnd).1 (ppath_eq_of_str _ _ hk)

/-- Scenario 4 with the nodes numbered from 1: the request `org.foo` resolved
into `org.foo.a`, `org.foo.b` and `org.foo.c`; the map `download_dependencies_`
holds these three nodes and the node created for the root package. -/
theorem root_subsumption_witness :
    (∀ k, k ∈ StdMap.keys (root_dependencies (download_dependencies
          (demo_env answer_abc) [requested "org.foo" "*"]
          (demo_start, World.empty)).state.1) ↔
        ∃ n ∈ (download_dependencies (demo_env answer_abc)
          [requested "org.foo" "*"] (demo_start, World.empty)).state.1.download_dependencies_,
          n.2.flags.pfDirectDependency = true ∧ n.2.ppath.str = k)
      ∧ "org.foo" ∉ StdMap.keys (root_dependencies (download_dependencies
          (demo_env answer_abc) [requested "org.foo" "*"]
          (demo_start, World.empty)).state.1) :=
  root_subsumption (demo_env answer_abc) (requested "org.foo" "*").2
    (demo_start, World.empty)
    (download_dependencies (demo_env answer_abc) [requested "org.foo" "*"]
      (demo_start, World.empty)).state
    (by decide) (by decide) (by decide) (by decide) (by decide) (by decide)

/-! ### Iteration over the package map -/

theorem cmpChars_nil_right (a : List Char) : cmpChars a [] ≠ Ordering.lt := by
  cases a <;> simp [cmpChars]

theorem cmpPackage_root_least (p : Package) : cmpPackage p Package.root ≠ Ordering.lt := by
  unfold cmpPackage cmpStr
  simp only [Package.root]
  have h1 := cmpChars_nil_right p.ppath.str.data
  have h2 := cmpChars_nil_right p.version.str.data
  cases h : cmpChars p.ppath.str.data [] with
  | lt => exact absurd h h1
  | gt => simp
  | eq => simpa using h2

theorem cmpPackage_congr_right (a b c : Package) (h : cmpPackage b c = Ordering.eq) :
    cmpPackage a c = cmpPackage a b := by
  obtain ⟨h1, h2⟩ := (cmpPackage_eq_iff b c).1 h
  unfold cmpPackage
  rw [h1, h2]

theorem cmpPackage_congr_left (a b c : Package) (h : cmpPackage a b = Ordering.eq) :
    cmpPackage a c = cmpPackage b c := by
  obtain ⟨h1, h2⟩ := (cmpPackage_eq_iff a b).1 h
  unfold cmpPackage
  rw [h1, h2]

theorem is_root_iff (p : Package) :
    p.is_root = true ↔ cmpPackage Package.root p = Ordering.eq := by
  rw [cmpPackage_eq_iff]
  unfold Package.is_root
  simp only [Bool.and_eq_true, beq_iff_eq, Package.root]
  constructor
  · rintro ⟨h1, h2⟩
    exact ⟨(ppath_eq_of_str _ _ h1).symm, by cases hv : p.version; simp_all⟩
  · rintro ⟨h1, h2⟩
    rw [← h1, ← h2]
    exact ⟨rfl, rfl⟩

theorem filter_none_root (m : PackageConfigs)
    (h : ∀ e ∈ m, cmpPackage Package.root e.1 ≠ Ordering.eq) :
    m.filter (fun e => !e.1.is_root) = m := by
  rw [List.filter_eq_self]
  intro e he
  cases hr : e.1.is_root with
  | false => rfl
  | true => exact absurd ((is_root_iff e.1).1 hr) (h e he)

/-- C8. In every state whose package map is in key order, the entries visited
from `begin()` to `end()` are exactly the entries of the map whose key is not
the sentinel root (empty path, empty version), in the order of the map and
each once: the root is not visited and no other entry is left out. -/
theorem iteration_excludes_root (s : ResponseData) (h : Ordered s.packages) :
    s.range = s.packages.filter (fun e => !e.1.is_root) := by
  unfold ResponseData.range ResponseData.begin ResponseData.«end»
  rw [List.take_length]
  cases hm : s.packages with
  | nil => simp [position]
  | cons x xs =>
    unfold Ordered at h
    rw [hm, List.pairwise_cons] at h
    simp only [position]
    by_cases hx : cmpPackage Package.root x.1 = Ordering.eq
    · simp only [hx, if_true, Nat.zero_add, List.drop_succ_cons, List.drop_zero]
      have hxr : x.1.is_root = true := (is_root_iff x.1).2 hx
      rw [List.filter_cons]
      simp only [hxr, Bool.not_true, Bool.false_eq_true, if_false]
      symm
      apply filter_none_root
      intro e he hc
      have h1 := h.1 e he
      rw [← cmpPackage_congr_left _ _ _ hx, cmpPackage_congr_right _ _ _ hc,
        cmpPackage_self] at h1
      cases h1
    · have hnone : position cmpPackage Package.root xs = none := by
        cases hp : position cmpPackage Package.root xs with
        | none => rfl
        | some i =>
          exfalso
          have hex : ∃ e ∈ xs, cmpPackage Package.root e.1 = Ordering.eq := by
            clear h hm
            induction xs generalizing i with
            | nil => simp [position] at hp
            | cons y ys ih =>
              simp only [position] at hp
              by_cases hy : cmpPackage Package.root y.1 = Ordering.eq
              · exact ⟨y, List.mem_cons_self _ _, hy⟩
              · simp only [hy, if_false] at hp
                cases hq : position cmpPackage Package.root ys with
                | none => simp [hq] at hp
                | some j =>
                  obtain ⟨e, he, hec⟩ := ih j hq
                  exact ⟨e, List.mem_cons_of_mem _ he, hec⟩
          obtain ⟨e, he, hec⟩ := hex
          have h1 := h.1 e he
          rw [cmpPackage_congr_right _ _ _ hec] at h1
          exact cmpPackage_root_least x.1 h1
      simp only [hx, if_false, hnone, Option.map_none', List.drop_zero]
      symm
      apply filter_none_root
      intro e he
      rcases List.mem_cons.1 he with h1 | h1
      · rw [h1]
        exact hx
      · intro hc
        have h2 := h.1 e h1
        rw [cmpPackage_congr_right _ _ _ hc] at h2
        exact cmpPackage_root_least x.1 h2

/-- The state in which the orchestrator has run scenario 4. -/
theorem iteration_excludes_root_witness :
    (download_dependencies (demo_env answer_abc) [requested "org.foo" "*"]
        (demo_start, World.empty)).state.1.range
      = (download_dependencies (demo_env answer_abc) [requested "org.foo" "*"]
        (demo_start, World.empty)).state.1.packages.filter (fun e => !e.1.is_root) :=
  iteration_excludes_root _ (by decide)

/-! ### Flags of the edges after `prepare_config` -/

theorem find_update_other (k k' : String) (f : Package → Package) (m : Packages)
    (hne : k ≠ k') :
    StdMap.find cmpStr k (StdMap.update cmpStr k' f m) = StdMap.find cmpStr k m := by
  induction m with
  | nil => rfl
  | cons y ys ih =>
    simp only [StdMap.update]
    by_cases hc : cmpStr k' y.1 = Ordering.eq
    · have hky : cmpStr k y.1 ≠ Ordering.eq := by
        intro h1
        exact hne (((cmpStr_eq_iff _ _).1 h1).trans ((cmpStr_eq_iff _ _).1 hc).symm)
      simp only [hc, if_true, StdMap.find, hky, if_false]
    · simp only [hc, if_false, StdMap.find, ih]

theorem find_congr_key {V : Type} (k k' : Package) (m : List (Package × V))
    (h : cmpPackage k k' = Ordering.eq) :
    StdMap.find cmpPackage k m = StdMap.find cmpPackage k' m := by
  induction m with
  | nil => rfl
  | cons y ys ih =>
    simp only [StdMap.find, cmpPackage_congr_left k k' y.1 h, ih]

theorem prepare_dep_invariant (k : String) (dep : Int × DownloadDependency)
    (acc acc' : Packages × Packages)
    (hinv : (∃ i, StdMap.find cmpStr k acc.1 = some i ∧ i.2.flags.pfIncludeDirectories = true)
      ∧ ∀ e ∈ acc.2, e.1 = k → e.2.flags.pfIncludeDirectories = true)
    (h : prepare_dep dep acc = Res.ok acc') :
    (∃ i, StdMap.find cmpStr k acc'.1 = some i ∧ i.2.flags.pfIncludeDirectories = true)
      ∧ ∀ e ∈ acc'.2, e.1 = k → e.2.flags.pfIncludeDirectories = true := by
  unfold prepare_dep at h
  cases hf : StdMap.find cmpStr dep.2.ppath.str acc.1 with
  | none =>
    rw [hf] at h
    cases h
  | some i' =>
    rw [hf] at h
    simp only [Res.ok.injEq] at h
    rw [← h]
    obtain ⟨⟨i, hi, hinc⟩, hdeps⟩ := hinv
    by_cases hk : k = dep.2.ppath.str
    · rw [← hk] at hf
      rw [hi] at hf
      simp only [Option.some.injEq] at hf
      constructor
      · rw [← hk]
        exact ⟨_, StdMap.find_update cmpStr k _ acc.1 i hi, by rw [← hf]; exact hinc⟩
      · intro e he _
        rcases StdMap.mem_insert _ _ _ _ e he with h1 | h1
        · rw [h1, ← hf]
          exact hinc
        · exact hdeps e h1 (by assumption)
    · constructor
      · rw [find_update_other k _ _ acc.1 hk]
        exact ⟨i, hi, hinc⟩
      · intro e he hek
        rcases StdMap.mem_insert _ _ _ _ e he with h1 | h1
        · exfalso
          rw [h1] at hek
          exact hk hek.symm
        · exact hdeps e h1 hek

theorem prepare_dep_keeps (dep : Int × DownloadDependency) (acc acc' : Packages × Packages)
    (e : String × Package) (he : e ∈ acc.2) (h : prepare_dep dep acc = Res.ok acc') :
    e ∈ acc'.2 := by
  unfold prepare_dep at h
  cases hf : StdMap.find cmpStr dep.2.ppath.str acc.1 with
  | none =>
    rw [hf] at h
    cases h
  | some i' =>
    rw [hf] at h
    simp only [Res.ok.injEq] at h
    rw [← h]
    exact StdMap.mem_insert_of_mem _ _ _ _ e he

theorem prepare_deps_has_key (direct : List (Int × DownloadDependency))
    (dep : Int × DownloadDependency) (hdep : dep ∈ direct) (acc acc' : Packages × Packages)
    (h : Res.forIn prepare_dep direct acc = Res.ok acc') :
    ∃ e ∈ acc'.2, e.1 = dep.2.ppath.str := by
  induction direct generalizing acc with
  | nil => cases hdep
  | cons x xs ih =>
    simp only [Res.forIn] at h
    obtain ⟨a1, h1, h2⟩ := andThen_ok _ _ _ h
    rcases List.mem_cons.1 hdep with hd | hd
    · subst hd
      have hkey : ∃ e ∈ a1.2, e.1 = dep.2.ppath.str := by
        unfold prepare_dep at h1
        cases hf : StdMap.find cmpStr dep.2.ppath.str acc.1 with
        | none =>
          rw [hf] at h1
          cases h1
        | some i' =>
          rw [hf] at h1
          simp only [Res.ok.injEq] at h1
          rw [← h1]
          obtain ⟨e, he, hek⟩ := StdMap.insert_has_key cmpStr dep.2.ppath.str
            ({ dep.2.toPackage with
               flags := { dep.2.flags with
                          pfIncludeDirectories := i'.2.flags.pfIncludeDirectories } })
            acc.2 (cmpStr_self _)
          exact ⟨e, he, ((cmpStr_eq_iff _ _).1 hek).symm⟩
      obtain ⟨e, he, hek⟩ := hkey
      refine ⟨e, ?_, hek⟩
      exact forIn_invariant prepare_dep (fun (a : Packages × Packages) => e ∈ a.2) xs
        (fun d _ a a' ha hb => prepare_dep_keeps d a a' e ha hb) a1 acc' he h2
    · exact ih hd a1 h2

/-- C9, as stated, fails: the entry of `org.a` holds an edge to `org.b`
without `IncludeDirectories` from before the call, the project of `org.a`
declares the edge with the flag; `prepare_config` succeeds and the edge
stored under `org.b` still lacks the flag. -/
theorem stale_edge_keeps_its_flags :
    (prepare_config stale_entry_state (edge "org.a" false)).isOk = true
      ∧ (resolved_node (prepare_config stale_entry_state (edge "org.a" false)).state
          (edge "org.a" false)).getDirectDependencies
          (prepare_config stale_entry_state (edge "org.a" false)).state.download_dependencies_
        = [(2, { toPackage := edge "org.b" false, md5 := "abc", id_dependencies := [],
                 has_map := true })]
      ∧ ((StdMap.find cmpPackage (edge "org.a" false) stale_entry_state.packages).bind
          (fun cc => cc.2.config.bind
            (fun c => (StdMap.find cmpStr "org.b" c.project.dependencies).map
              (fun i => i.2.flags.pfIncludeDirectories)))) = some true
      ∧ ((StdMap.find cmpPackage (edge "org.a" false)
            (prepare_config stale_entry_state (edge "org.a" false)).state.packages).bind
          (fun cc => (StdMap.find cmpStr "org.b" cc.2.dependencies).map
            (fun e => e.2.flags.pfIncludeDirectories))) = some false := by
  decide

/-- C9, amended. After `prepare_config` has succeeded on a package entry,
for every direct dependency `d` of the resolved node of the package whose
declared edge in the dependencies of the project has `IncludeDirectories`
set, and under whose path the entry held no edge before the call, the edge
stored under the path of `d` in the dependencies of the entry has
`IncludeDirectories` set. -/
theorem include_directories_propagate (s s' : ResponseData) (key : Package)
    (cc : Package × PackageConfig) (c : Config)
    (hfind : StdMap.find cmpPackage key s.packages = some cc) (hc : cc.2.config = some c)
    (hok : prepare_config s key = Res.ok s')
    (dep : Int × DownloadDependency)
    (hdep : dep ∈ (resolved_node s' cc.1).getDirectDependencies s'.download_dependencies_)
    (i : String × Package)
    (hi : StdMap.find cmpStr dep.2.ppath.str c.project.dependencies = some i)
    (hinc : i.2.flags.pfIncludeDirectories = true)
    (hfresh : StdMap.find cmpStr dep.2.ppath.str cc.2.dependencies = none) :
    ∃ cc' e, StdMap.find cmpPackage key s'.packages = some cc'
      ∧ StdMap.find cmpStr dep.2.ppath.str cc'.2.dependencies = some e
      ∧ e.2.flags.pfIncludeDirectories = true := by
  unfold prepare_config at hok
  rw [hfind] at hok
  simp only [hc] at hok
  split at hok
  · rename_i acc' hr
    simp only [Res.ok.injEq] at hok
    rw [hr] at hok
    simp only [Res.state] at hok
    subst hok
    simp only [resolved_node] at hdep
    have hinv := forIn_invariant prepare_dep
      (fun (a : Packages × Packages) =>
        (∃ i, StdMap.find cmpStr dep.2.ppath.str a.1 = some i
            ∧ i.2.flags.pfIncludeDirectories = true)
          ∧ ∀ e ∈ a.2, e.1 = dep.2.ppath.str → e.2.flags.pfIncludeDirectories = true)
      _ (fun d _ a a' ha hb => prepare_dep_invariant dep.2.ppath.str d a a' ha hb)
      _ acc' ⟨⟨i, hi, hinc⟩, by
        intro e he hek
        exfalso
        exact (StdMap.find_none_iff _ _ _).1 hfresh e he ((cmpStr_eq_iff _ _).2 hek.symm)⟩ hr
    obtain ⟨e0, he0, hek0⟩ := prepare_deps_has_key _ dep hdep _ acc' hr
    have hsome : (StdMap.find cmpStr dep.2.ppath.str acc'.2).isSome = true := by
      rw [StdMap.find_isSome_iff]
      exact ⟨e0, he0, (cmpStr_eq_iff _ _).2 hek0.symm⟩
    cases hfe : StdMap.find cmpStr dep.2.ppath.str acc'.2 with
    | none =>
      rw [hfe] at hsome
      cases hsome
    | some e =>
      obtain ⟨hmem, hcmp⟩ := StdMap.find_some_mem _ _ _ e hfe
      have hkey := (StdMap.find_some_mem _ _ _ cc hfind).2
      obtain ⟨x, hx, hcase⟩ := StdMap.find_modify cmpPackage cc.1 PackageConfig.default
        (fun _ => PackageConfig.mk
          (some (Config.mk true c.downloaded cc.1
            (Project.mk cc.1 acc'.1 c.project.unpack_directory))) acc'.2)
        s.packages (cmpPackage_self _)
      refine ⟨x, e, ?_, ?_, hinv.2 e hmem ((cmpStr_eq_iff _ _).1 hcmp).symm⟩
      · rw [find_congr_key key cc.1 _ hkey]
        exact hx
      · rcases hcase with h1 | ⟨y, _, h1⟩ <;> rw [h1] <;> exact hfe
  · cases hok

/-- The entry of `org.a` without edges, its project declaring `org.b` with
`IncludeDirectories`. -/
theorem include_directories_propagate_witness :
    ∃ cc' e, StdMap.find cmpPackage (edge "org.a" false)
        (prepare_config fresh_entry_state (edge "org.a" false)).state.packages = some cc'
      ∧ StdMap.find cmpStr "org.b" cc'.2.dependencies = some e
      ∧ e.2.flags.pfIncludeDirectories = true :=
  include_directories_propagate fresh_entry_state
    (prepare_config fresh_entry_state (edge "org.a" false)).state
    (edge "org.a" false)
    (edge "org.a" false,
      { config := some
          { demo_config with
            project := { demo_config.project with
                         dependencies := [("org.b", edge "org.b" true)] } }
        dependencies := [] })
    { demo_config with
      project := { demo_config.project with dependencies := [("org.b", edge "org.b" true)] } }
    (by decide) (by decide) (by decide)
    (2, { toPackage := edge "org.b" false, md5 := "abc", id_dependencies := [],
          has_map := true })
    (by decide) ("org.b", edge "org.b" true) (by decide) (by decide) (by decide)

/-! ### The fetch of one node -/

theorem forIn_append_ok {α σ : Type} (body : α → σ → Res σ) (pre rest : List α) (s s1 : σ)
    (h : Res.forIn body pre s = Res.ok s1) :
    Res.forIn body (pre ++ rest) s = Res.forIn body rest s1 := by
  induction pre generalizing s with
  | nil =>
    simp only [Res.forIn, Res.ok.injEq] at h
    rw [h]
    rfl
  | cons a as ih =>
    simp only [Res.forIn, List.cons_append] at h ⊢
    obtain ⟨s2, h2, h3⟩ := andThen_ok _ _ _ h
    rw [h2]
    simp only [Res.andThen]
    exact ih s2 h3

theorem append_ne_self (a x : String) (hx : x.data ≠ []) : a ++ x ≠ a := by
  intro h
  have h1 := congrArg String.data h
  rw [String.data_append] at h1
  exact hx (List.append_right_eq_self.1 h1)

theorem append_ne_append (a x y : String) (hxy : x ≠ y) : a ++ x ≠ a ++ y := by
  intro h
  have h1 := congrArg String.data h
  rw [String.data_append, String.data_append] at h1
  have h2 := List.append_cancel_left h1
  apply hxy
  cases x; cases y
  simp_all

theorem within_append (a x : String) (c : Char) (cs : List Char) (hx : x.data = c :: cs)
    (hc : c ≠ '/') : World.within a (a ++ x) = false := by
  unfold World.within
  have h1 : (a ++ x == a) = false := by
    rw [beq_eq_false_iff_ne]
    apply append_ne_self
    rw [hx]
    exact List.cons_ne_nil _ _
  rw [h1, Bool.false_or, String.data_append, hx]
  cases hp : (a.data ++ ['/']).isPrefixOf (a.data ++ c :: cs) with
  | false => rfl
  | true =>
    exfalso
    rw [ List.isPrefixOf_iff_prefix, List.prefix_append_right_inj] at hp
    obtain ⟨t, ht⟩ := hp
    simp only [List.singleton_append, List.cons.injEq] at ht
    exact hc ht.1.symm

theorem find_filter_keep {α : Type} (p q : α → Bool) (l : List α)
    (h : ∀ x, p x = true → q x = true) : (l.filter q).find? p = l.find? p := by
  induction l with
  | nil => rfl
  | cons x xs ih =>
    by_cases hq : q x = true
    · rw [List.filter_cons_of_pos hq]
      simp only [List.find?_cons, ih]
    · rw [List.filter_cons_of_neg hq]
      have hp : p x = false := by
        cases hpx : p x with
        | false => rfl
        | true => exact absurd (h x hpx) hq
      simp only [List.find?_cons, hp, ih]

theorem read_write_other (w : World) (p q c : String) (h : q ≠ p) :
    (w.write_file p c).read q = w.read q := by
  unfold World.read World.write_file
  have h1 : (p == q) = false := by
    rw [beq_eq_false_iff_ne]
    exact fun h2 => h h2.symm
  simp only [List.find?_cons, h1]
  rw [find_filter_keep]
  intro x hx
  simp only [beq_iff_eq] at hx
  simp only [Bool.not_eq_true', beq_eq_false_iff_ne, hx]
  exact h

theorem read_write_same (w : World) (p c : String) : (w.write_file p c).read p = some c := by
  unfold World.read World.write_file
  simp [List.find?_cons]

theorem cleanPackages_no_src (env : Env) (p : Package) (w : World) :
    (cleanPackages env p w).fs_exists (getDirSrc env p) = false := by
  unfold cleanPackages World.fs_exists World.remove_all
  simp only [Bool.or_eq_false_iff]
  constructor
  · rw [List.contains_eq_any_beq, List.any_eq_false]
    intro x hx
    rw [List.mem_filter, List.mem_filter] at hx
    have h1 := hx.1.2
    simp only [World.within, Bool.not_eq_true', Bool.or_eq_false_iff] at h1
    intro h2
    rw [beq_iff_eq] at h2
    rw [h2] at h1
    simp at h1
  · rw [List.any_eq_false]
    intro x hx
    rw [List.mem_filter, List.mem_filter] at hx
    have h1 := hx.1.2
    simp only [World.within, Bool.not_eq_true', Bool.or_eq_false_iff] at h1
    intro h2
    rw [beq_iff_eq] at h2
    rw [h2] at h1
    simp at h1

theorem write_file_no_dir (w : World) (p q c : String) (hq : w.fs_exists q = false)
    (h : q ≠ p) : (w.write_file p c).fs_exists q = false := by
  unfold World.fs_exists World.write_file at *
  simp only [Bool.or_eq_false_iff] at hq ⊢
  refine ⟨hq.1, ?_⟩
  rw [List.any_eq_false] at hq ⊢
  intro x hx
  rcases List.mem_cons.1 hx with h1 | h1
  · rw [h1]
    simp only [beq_iff_eq]
    exact fun h2 => h h2.symm
  · exact hq.2 x (List.mem_filter.1 h1).1

/-- C4, as stated, fails: in scenario 3 the call fails with the md5 error and
the archive file `<srcdir>.tar.gz` is still on disk. -/
theorem mismatched_archive_stays :
    (download_dependencies (demo_env answer_wrong_md5) [requested "org.foo" "*"]
        (demo_start, World.empty)).error? = some "md5 does not match for package 'org.foo'"
      ∧ (download_dependencies (demo_env answer_wrong_md5) [requested "org.foo" "*"]
        (demo_start, World.empty)).state.2.fs_exists "/s/org/foo/1.0.0.tar.gz" = true
      ∧ (download_dependencies (demo_env answer_wrong_md5) [requested "org.foo" "*"]
        (demo_start, World.empty)).state.2.files = [("/s/org/foo/1.0.0.tar.gz", "bytes")] := by
  decide

/-- C4, amended. Let the loop of `download_and_unpack` reach the node `d`
(the nodes before it are fetched without exception), let `d` be neither
skipped nor locked by another process, and let the archive downloaded for `d`
have an md5 different from `d.md5`. Then `download_and_unpack` fails with a
message that holds the path of `d`; the stamp file reads as `cleanPackages`
left it (it is not written), the source directory does not exist (the archive
is not unpacked), the downloaded archive file `<srcdir>.tar.gz` is left on
disk with the bytes received, and `downloads` has been incremented. -/
theorem md5_mismatch_fails (env : Env) (sw sw1 : Sys)
    (pre post : List (Int × DownloadDependency)) (i : Int) (d : DownloadDependency)
    (bytes dl_md5 : String)
    (hG : sw.1.download_dependencies_ = pre ++ (i, d) :: post)
    (hpre : Res.forIn (fun dd => download_and_unpack_node env dd.2) pre sw = Res.ok sw1)
    (hskip : skips env d sw1.2 = false)
    (hlock : sw1.2.peer_locks.contains (getStampFilename env d.toPackage) = false)
    (hdl : env.download_file (package_url sw1.1 d) = Except.ok (bytes, dl_md5))
    (hne : dl_md5 ≠ d.md5) :
    (download_and_unpack env sw).error?
        = some ("md5 does not match for package '" ++ d.ppath.str ++ "'")
      ∧ (download_and_unpack env sw).state.2.read (getStampFilename env d.toPackage)
        = (cleanPackages env d.toPackage sw1.2).read (getStampFilename env d.toPackage)
      ∧ (download_and_unpack env sw).state.2.fs_exists (getDirSrc env d.toPackage) = false
      ∧ (download_and_unpack env sw).state.2.read (archive_file env d) = some bytes
      ∧ (download_and_unpack env sw).state.1.downloads = sw1.1.downloads + 1 := by
  have hbody : download_and_unpack_node env d sw1
      = Res.fail ("md5 does not match for package '" ++ d.ppath.str ++ "'")
          ({ sw1.1 with downloads := sw1.1.downloads + 1 },
           World.write_file
             { cleanPackages env d.toPackage sw1.2 with
               net_log := (cleanPackages env d.toPackage sw1.2).net_log
                 ++ [package_url sw1.1 d] }
             (archive_file env d) bytes) := by
    unfold download_and_unpack_node
    simp only [hskip, hlock, Bool.false_eq_true, if_false]
    unfold fetch_locked
    simp only [hdl]
    have hb : (dl_md5 != d.md5) = true := by
      rw [bne_iff_ne]
      exact hne
    simp only [hb, if_true]
  have hres : download_and_unpack env sw
      = Res.fail ("md5 does not match for package '" ++ d.ppath.str ++ "'")
          ({ sw1.1 with downloads := sw1.1.downloads + 1 },
           World.write_file
             { cleanPackages env d.toPackage sw1.2 with
               net_log := (cleanPackages env d.toPackage sw1.2).net_log
                 ++ [package_url sw1.1 d] }
             (archive_file env d) bytes) := by
    unfold download_and_unpack
    rw [hG, forIn_append_ok _ pre _ sw sw1 hpre]
    simp only [Res.forIn, hbody, Res.andThen]
  rw [hres]
  refine ⟨rfl, ?_, ?_, ?_, rfl⟩
  · simp only [Res.state]
    rw [read_write_other]
    · rfl
    · unfold getStampFilename archive_file
      exact append_ne_append _ _ _ (by decide)
  · simp only [Res.state]
    apply write_file_no_dir
    · exact cleanPackages_no_src env d.toPackage sw1.2
    · unfold archive_file
      exact (append_ne_self _ _ (by decide)).symm
  · simp only [Res.state]
    exact read_write_same _ _ _

/-- Scenario 3: the only node is `org.foo`, advertised with the digest `xyz`. -/
theorem md5_mismatch_fails_witness :
    (download_and_unpack (demo_env answer_wrong_md5)
        (extractDependencies (demo_env answer_wrong_md5)
          ({ demo_start with dependency_tree := answer_wrong_md5 }, World.empty)).state).error?
        = some ("md5 does not match for package '" ++ "org.foo" ++ "'")
      ∧ (download_and_unpack (demo_env answer_wrong_md5)
        (extractDependencies (demo_env answer_wrong_md5)
          ({ demo_start with dependency_tree := answer_wrong_md5 }, World.empty)).state).state.2.read
          "/s/org/foo/1.0.0.md5" = none
      ∧ (download_and_unpack (demo_env answer_wrong_md5)
        (extractDependencies (demo_env answer_wrong_md5)
          ({ demo_start with dependency_tree := answer_wrong_md5 }, World.empty)).state).state.2.fs_exists
          "/s/org/foo/1.0.0" = false
      ∧ (download_and_unpack (demo_env answer_wrong_md5)
        (extractDependencies (demo_env answer_wrong_md5)
          ({ demo_start with dependency_tree := answer_wrong_md5 }, World.empty)).state).state.2.read
          "/s/org/foo/1.0.0.tar.gz" = some "bytes"
      ∧ (download_and_unpack (demo_env answer_wrong_md5)
        (extractDependencies (demo_env answer_wrong_md5)
          ({ demo_start with dependency_tree := answer_wrong_md5 }, World.empty)).state).state.1.downloads
        = 0 + 1 :=
  md5_mismatch_fails (demo_env answer_wrong_md5)
    (extractDependencies (demo_env answer_wrong_md5)
      ({ demo_start with dependency_tree := answer_wrong_md5 }, World.empty)).state
    (extractDependencies (demo_env answer_wrong_md5)
      ({ demo_start with dependency_tree := answer_wrong_md5 }, World.empty)).state
    [] [] 1
    { toPackage := { ppath := ⟨"org.foo"⟩, version := ⟨"1.0.0"⟩,
                     flags := { pfDirectDependency := true, pfIncludeDirectories := false,
                                others := 0 },
                     target_name := "org.foo-1.0.0" },
      md5 := "xyz", id_dependencies := [], has_map := true }
    "bytes" "abc" (by decide) (by decide) (by decide) (by decide) rfl (by decide)

/-! ### A second run of the fetch step -/

theorem forIn_const {α σ : Type} (body : α → σ → Res σ) (l : List α) (s : σ)
    (h : ∀ a ∈ l, body a s = Res.ok s) : Res.forIn body l s = Res.ok s := by
  induction l with
  | nil => rfl
  | cons a as ih =>
    simp only [Res.forIn]
    rw [h a (List.mem_cons_self _ _)]
    simp only [Res.andThen]
    exact ih (fun x hx => h x (List.mem_cons_of_mem _ hx))

theorem add_config_grows (env : Env) (d : DownloadDependency) (s : ResponseData)
    (c : Config) (s1 : ResponseData) (ha : add_config env d s = Except.ok (c, s1)) :
    s1.downloads = s.downloads ∧ s1.config_store.length = s.config_store.length + 1 := by
  unfold add_config at ha
  split at ha
  · cases ha
  · simp only [Except.ok.injEq, Prod.mk.injEq] at ha
    rw [← ha.2]
    simp

/-- A node that is fetched under the lock is counted in `downloads`. -/
theorem fetch_locked_counts (env : Env) (d : DownloadDependency) (sw sw' : Sys)
    (h : fetch_locked env d sw = Res.ok sw') : sw'.1.downloads = sw.1.downloads + 1 := by
  unfold fetch_locked at h
  simp only at h
  split at h
  · cases h
  · split at h
    · cases h
    · split at h
      · cases h
      · split at h
        · cases h
        · rename_i c s2 ha
          have h2 := (add_config_grows env d _ c s2 ha).1
          split at h
          · simp only [Res.ok.injEq] at h
            rw [← h]
            exact h2
          · split at h
            · cases h
            · simp only [Res.ok.injEq] at h
              rw [← h]
              exact h2

theorem create_directories_net_log (w : World) (p : String) :
    (w.create_directories p).net_log = w.net_log := by
  unfold World.create_directories
  split <;> rfl

theorem unpack_fold_net_log (version_dir : String) (entries : List (String × Bool))
    (w : World) :
    (entries.foldl
      (fun w e =>
        if e.2 then w.create_directories (version_dir ++ "/" ++ e.1)
        else w.write_file (version_dir ++ "/" ++ e.1) "") w).net_log = w.net_log := by
  induction entries generalizing w with
  | nil => rfl
  | cons e es ih =>
    simp only [List.foldl_cons]
    rw [ih]
    split
    · exact create_directories_net_log _ _
    · rfl

theorem unpack_into_net_log (version_dir : String) (entries : List (String × Bool))
    (w : World) : (unpack_into version_dir entries w).net_log = w.net_log := by
  unfold unpack_into
  rw [unpack_fold_net_log, create_directories_net_log]

/-- A node that is fetched under the lock has its archive requested once,
whatever the outcome of the fetch. -/
theorem fetch_locked_net_log (env : Env) (d : DownloadDependency) (sw : Sys) :
    (fetch_locked env d sw).state.2.net_log = sw.2.net_log ++ [package_url sw.1 d] := by
  unfold fetch_locked
  simp only
  split
  · rfl
  · split
    · rfl
    · split
      · rfl
      · split
        · simp only [Res.state, World.remove]
          rw [unpack_into_net_log]
          rfl
        · split
          · simp only [Res.state, World.remove]
            rw [unpack_into_net_log]
            rfl
          · split
            · simp only [Res.state, World.remove]
              rw [unpack_into_net_log]
              rfl
            · simp only [Res.state, move_all]
              rw [create_directories_net_log]
              simp only [World.remove]
              rw [unpack_into_net_log]
              rfl

/-- The guard of the loop of `download_and_unpack`, spelled out. -/
theorem skips_iff (env : Env) (d : DownloadDependency) (w : World) :
    skips env d w = true ↔
      (w.fs_exists (getDirSrc env d.toPackage) = true
        ∧ ¬ (stamp_md5 env d w ≠ d.md5 ∨ stamp_md5 env d w = "" ∨ d.md5 = "")) := by
  unfold skips must_download
  simp only [Bool.and_eq_true, Bool.not_eq_true', Bool.or_eq_false_iff, bne_eq_false_iff_eq,
    beq_eq_false_iff_ne, ne_eq, not_or, not_not]
  constructor
  · rintro ⟨h1, ⟨h2, h3⟩, h4⟩
    exact ⟨h1, h2, h4, h3⟩
  · rintro ⟨h1, h2, h3, h4⟩
    exact ⟨h1, ⟨h2, h4⟩, h3⟩

/-- The body of the loop returns the orchestrator and the world as they were
only through its `continue`. -/
theorem download_and_unpack_node_unchanged_iff (env : Env) (d : DownloadDependency)
    (sw : Sys) : download_and_unpack_node env d sw = Res.ok sw ↔ skips env d sw.2 = true := by
  constructor
  · intro h
    cases hs : skips env d sw.2 with
    | true => rfl
    | false =>
      exfalso
      unfold download_and_unpack_node at h
      rw [if_neg (by rw [hs]; exact Bool.false_ne_true)] at h
      split at h
      · split at h
        · cases h
        · rename_i c s1 ha
          simp only [Res.ok.injEq] at h
          have h2 := (add_config_grows env d _ c s1 ha).2
          have h3 : s1 = sw.1 := congrArg Prod.fst h
          rw [h3] at h2
          omega
      · have h2 := fetch_locked_counts env d sw sw h
        omega
  · intro hs
    unfold download_and_unpack_node
    rw [if_pos hs]

/-- C5, as stated, fails, in two ways.

First, the index resolves `org.foo.master` at version `1.0.0` and `org.foo` at
version `master`, both with a non-empty md5. The first run of the fetch step, on
an empty disk, completes with two downloads; it does not leave the source
directory and the stamp of `org.foo.master` in place, because the cleanup that
precedes the download of `org.foo` removes what lies below
`/s/org/foo/master`. The second run, by a fresh orchestrator over the same
nodes from that disk, downloads `org.foo.master` again (downloads is 1) and
changes the disk.

Second, the node `org.foo` is resolved with an empty md5. The first run
completes (another process held the lock and the orchestrator waited for it)
and leaves the source directory present and the stamp file holding `d.md5`;
the second run still does not skip the node: it downloads the archive again
(downloads is 1) and changes the disk. -/
theorem second_run_downloads_again :
    (first_run_master.isOk = true
      ∧ first_run_master.state.1.download_dependencies_.map
          (fun n => (n.2.ppath.str, n.2.version.str, n.2.md5))
        = [("org.foo.master", "1.0.0", "abc"), ("org.foo", "master", "abc")]
      ∧ first_run_master.state.1.downloads = 2
      ∧ first_run_master.state.2.fs_exists "/s/org/foo/master/1.0.0" = false
      ∧ first_run_master.state.2.read "/s/org/foo/master/1.0.0.md5" = none
      ∧ second_run_master.isOk = true
      ∧ second_run_master.state.1.downloads = 1
      ∧ second_run_master.state.2.net_log
        = first_run_master.state.2.net_log ++ ["http://h/data/org/foo/master/1.0.0.tar.gz"]
      ∧ second_run_master.state.2.dirs ≠ first_run_master.state.2.dirs)
    ∧ (first_run_without_md5.isOk = true
      ∧ first_run_without_md5.state.2.fs_exists "/s/org/foo/1.0.0" = true
      ∧ first_run_without_md5.state.2.read "/s/org/foo/1.0.0.md5" = some node_without_md5.md5
      ∧ first_run_without_md5.state.2.peer_locks = []
      ∧ skips (demo_env answer_foo) node_without_md5 first_run_without_md5.state.2 = false
      ∧ second_run_without_md5.state.1.downloads = 1
      ∧ second_run_without_md5.state.2.net_log = ["http://h/data/org/foo/1.0.0.tar.gz"]
      ∧ second_run_without_md5.state.2.dirs ≠ first_run_without_md5.state.2.dirs) := by
  decide

/-- C5, amended. From a disk on which, for each resolved node `d`, the source
directory is present and the md5 read from the stamp file is `d.md5`, with
`d.md5` not empty, a run of the fetch step over these nodes skips every node:
it returns normally and leaves the orchestrator (its `downloads` counter
included, 0 for a fresh orchestrator) and the world, disk and network log,
unchanged.

A node is skipped exactly when its source directory exists and `must_download`
is false, where `must_download` holds when the md5 read from the stamp differs
from `d.md5`, or is empty, or `d.md5` is empty: the body of the loop,
`download_and_unpack_node`, returns the orchestrator and the world as they
were if and only if this condition holds; and when it does not hold and no
other process holds the lock, the archive of the node is requested from the
network. -/
theorem stamped_nodes_are_skipped (env : Env) (sw : Sys)
    (h : ∀ dd ∈ sw.1.download_dependencies_,
      sw.2.fs_exists (getDirSrc env dd.2.toPackage) = true
        ∧ stamp_md5 env dd.2 sw.2 = dd.2.md5 ∧ dd.2.md5 ≠ "") :
    download_and_unpack env sw = Res.ok sw
      ∧ (∀ d sw0, download_and_unpack_node env d sw0 = Res.ok sw0 ↔
          (sw0.2.fs_exists (getDirSrc env d.toPackage) = true
            ∧ ¬ (stamp_md5 env d sw0.2 ≠ d.md5 ∨ stamp_md5 env d sw0.2 = "" ∨ d.md5 = "")))
      ∧ (∀ d sw0,
          ¬ (sw0.2.fs_exists (getDirSrc env d.toPackage) = true
            ∧ ¬ (stamp_md5 env d sw0.2 ≠ d.md5 ∨ stamp_md5 env d sw0.2 = "" ∨ d.md5 = "")) →
          sw0.2.peer_locks.contains (getStampFilename env d.toPackage) = false →
          (download_and_unpack_node env d sw0).state.2.net_log
            = sw0.2.net_log ++ [package_url sw0.1 d]) := by
  refine ⟨?_, ?_, ?_⟩
  · unfold download_and_unpack
    apply forIn_const
    intro dd hdd
    obtain ⟨h1, h2, h3⟩ := h dd hdd
    rw [download_and_unpack_node_unchanged_iff, skips_iff]
    refine ⟨h1, ?_⟩
    rintro (h4 | h4 | h4)
    · exact h4 h2
    · exact h3 (h2.symm.trans h4)
    · exact h3 h4
  · intro d sw0
    rw [download_and_unpack_node_unchanged_iff, skips_iff]
  · intro d sw0 hno hlock
    have hs : skips env d sw0.2 = false := by
      cases hsk : skips env d sw0.2 with
      | false => rfl
      | true => exact absurd ((skips_iff env d sw0.2).1 hsk) hno
    unfold download_and_unpack_node
    rw [if_neg (by rw [hs]; exact Bool.false_ne_true),
      if_neg (by rw [hlock]; exact Bool.false_ne_true)]
    exact fetch_locked_net_log env d sw0

/-- Scenario 2: a fresh orchestrator in the world that a first run of
scenario 1 left. -/
theorem stamped_nodes_are_skipped_witness :
    download_and_unpack (demo_env answer_foo) second_orchestrator = Res.ok second_orchestrator
      ∧ (∀ d sw0, download_and_unpack_node (demo_env answer_foo) d sw0 = Res.ok sw0 ↔
          (sw0.2.fs_exists (getDirSrc (demo_env answer_foo) d.toPackage) = true
            ∧ ¬ (stamp_md5 (demo_env answer_foo) d sw0.2 ≠ d.md5
                ∨ stamp_md5 (demo_env answer_foo) d sw0.2 = "" ∨ d.md5 = "")))
      ∧ (∀ d sw0,
          ¬ (sw0.2.fs_exists (getDirSrc (demo_env answer_foo) d.toPackage) = true
            ∧ ¬ (stamp_md5 (demo_env answer_foo) d sw0.2 ≠ d.md5
                ∨ stamp_md5 (demo_env answer_foo) d sw0.2 = "" ∨ d.md5 = "")) →
          sw0.2.peer_locks.contains (getStampFilename (demo_env answer_foo) d.toPackage)
            = false →
          (download_and_unpack_node (demo_env answer_foo) d sw0).state.2.net_log
            = sw0.2.net_log ++ [package_url sw0.1 d]) :=
  stamped_nodes_are_skipped (demo_env answer_foo) second_orchestrator (by decide)

/-- Scenario 2, evaluated: the second orchestrator performs no download. -/
theorem scenario_already_present :
    second_orchestrator.1.download_dependencies_.map (fun n => n.2.ppath.str) = ["org.foo"]
      ∧ second_orchestrator.1.downloads = 0
      ∧ second_orchestrator.2.net_log
        = ["http://h/api/find_dependencies", "http://h/data/org/foo/1.0.0.tar.gz"]
      ∧ (download_and_unpack (demo_env answer_foo) second_orchestrator).state.1.downloads = 0
      ∧ (download_and_unpack (demo_env answer_foo) second_orchestrator).state.2
        = second_orchestrator.2 := by
  decide

/-! ### Where the edges added by the reconciliation come from -/

theorem reconcile_step_traced (deps : Packages) (dds : DownloadDependencies)
    (deps2 deps3 : Packages) (dd : DownloadDependency)
    (hR : Traced deps dds deps2) (h : reconcile_step dds deps2 dd = Res.ok deps3) :
    Traced deps dds deps3 := by
  unfold reconcile_step at h
  by_cases hd : dd.flags.pfDirectDependency = true
  · simp only [hd, Bool.not_true, Bool.false_eq_true, if_false] at h
    cases hf : StdMap.find cmpStr dd.ppath.str deps2 with
    | some x =>
      rw [hf] at h
      simp only [Res.ok.injEq] at h
      intro e he
      rw [← h] at he
      obtain ⟨y, hy, hy1, hy2⟩ := StdMap.mem_update _ _ _ _ e he
      have hpath : e.2.ppath = y.2.ppath := by
        rcases hy2 with h2 | h2 <;> rw [h2]
        rfl
      rcases hR y hy with ⟨q, hq, hq1, hq2⟩ | ⟨c, hc, hc1, hc2, hc3⟩
      · exact Or.inl ⟨q, hq, hy1.trans hq1, hpath.trans hq2⟩
      · exact Or.inr ⟨c, hc, hy1.trans hc1, hpath.trans hc2, hc3⟩
    | none =>
      rw [hf] at h
      simp only at h
      by_cases hem : (collect_matches dds deps2).1.isEmpty = true
      · simp [hem] at h
      · simp only [hem, Bool.false_eq_true, if_false, Res.ok.injEq] at h
        intro e he
        rw [← h] at he
        rcases StdMap.fold_insert_all_sound _ _ e he with h1 | h1
        · obtain ⟨r, hr, c, hc, hrc, hec⟩ := mem_to_add dds deps2 e h1
          right
          refine ⟨c, hc, by rw [hec], by rw [hec], ?_⟩
          rcases hR r hr with ⟨q, hq, _, hq2⟩ | ⟨c0, _, _, hc2, q, hq, hq3⟩
          · exact ⟨q, hq, by rw [← hq2]; exact hrc⟩
          · rw [hc2] at hrc
            exact ⟨q, hq, is_root_of_trans _ _ _ hq3 hrc⟩
        · rw [StdMap.fold_erase_mem] at h1
          exact hR e h1.1
  · simp only [hd, Bool.not_false, if_true, Res.ok.injEq] at h
    rw [← h]
    exact hR

theorem reconcile_traced (dds : DownloadDependencies) (deps deps3 : Packages)
    (h : reconcile dds deps = Res.ok deps3) : Traced deps dds deps3 := by
  unfold reconcile at h
  exact forIn_invariant _ (Traced deps dds) dds
    (fun dd _ s s' hs hb => reconcile_step_traced deps dds s s' dd.2 hs hb) deps deps3
    (fun e he => Or.inl ⟨e, he, rfl, rfl⟩) h

end Cppan
